import Mathlib

/-
Verification development for the goesmirror repository
(src/goesmirror/goesmirror.py).

The Python source is shallowly embedded below.  Strings are Lean
Strings manipulated through their character lists; Python datetimes are
embedded as records of (year, day-of-year, hour, minute, second), with
the total order given by the absolute-second position on the proleptic
Gregorian timeline (the order Python datetime comparison implements);
the S3 filesystem, the local filesystem and the process effects are an
explicit environment, an explicit map from path to file size, and an
explicit event trace.  Fallible operations return Except, with the
Python exception class recorded as an ErrKind.
-/

namespace Goesmirror

/-! ## String utilities (Python str.split, str.join, os.path.join, slicing) -/

/-- Python s.split(sep) for a single-character separator:
splits on every occurrence, keeps empty pieces, and returns [""] on "". -/
def splitOnChar (sep : Char) : List Char → List (List Char)
  | [] => [[]]
  | c :: cs =>
    if c = sep then [] :: splitOnChar sep cs
    else
      match splitOnChar sep cs with
      | [] => [[c]]
      | g :: gs => (c :: g) :: gs

theorem splitOnChar_ne_nil (sep : Char) (l : List Char) : splitOnChar sep l ≠ [] := by
  induction l with
  | nil => simp [splitOnChar]
  | cons c cs ih =>
    simp only [splitOnChar]
    split
    · simp
    · cases h : splitOnChar sep cs with
      | nil => simp
      | cons g gs => simp

/-- Python aws_file.split("/")[-1]: the part after the last slash. -/
def lastComponent (s : String) : String :=
  ⟨(splitOnChar '/' s.data).getLastD []⟩

/-- Python s[1:-1]: drop the first and the last character. -/
def pySlice1m1 (s : String) : String :=
  ⟨(s.data.drop 1).dropLast⟩

/-- Python "/".join(segs) (str.join keeps empty segments). -/
def joinSlash : List String → String
  | [] => ""
  | [s] => s
  | s :: rest => s ++ "/" ++ joinSlash rest

/-- CPython posixpath.join for two components:
an absolute second component resets the path; otherwise a "/" is
inserted unless the accumulated path is empty or already ends in "/". -/
def pathJoin2 (a b : String) : String :=
  if b.data.head? = some '/' then b
  else if a.data = [] ∨ a.data.getLast? = some '/' then a ++ b
  else a ++ "/" ++ b

/-- os.path.join(a, b₁, ..., bₙ). -/
def pathJoin (a : String) (bs : List String) : String :=
  bs.foldl pathJoin2 a

/-! ## Decimal formatting (str(n) and strftime zero-padding) -/

/-- The decimal digit characters. -/
def digitChar : Nat → Char
  | 0 => '0' | 1 => '1' | 2 => '2' | 3 => '3' | 4 => '4'
  | 5 => '5' | 6 => '6' | 7 => '7' | 8 => '8' | 9 => '9'
  | _ => '*'

/-- Fuel-driven decimal rendering of a natural number (fuel ≥ n suffices). -/
def natStrCore : Nat → Nat → List Char
  | 0, _ => []
  | f + 1, n =>
    if n < 10 then [digitChar n]
    else natStrCore f (n / 10) ++ [digitChar (n % 10)]

/-- str(n) for a natural number. -/
def natStr (n : Nat) : String :=
  ⟨natStrCore (n + 1) n⟩

/-- strftime-style zero padding to width w. -/
def padNum (w n : Nat) : String :=
  ⟨List.replicate (w - (natStr n).data.length) '0' ++ (natStr n).data⟩

/-! ## The datetime embedding

Python datetime values are represented by their (year, day-of-year,
hour, minute, second) components; the conversion between (month, day)
and day-of-year is a per-year bijection, so this carries the same
information as Python's representation at second granularity (the
program never uses sub-second precision).  Comparison of datetimes is
comparison of positions on the timeline, computed by absSec. -/

structure DT where
  year : Nat
  doy : Nat
  hour : Nat
  minute : Nat
  second : Nat
deriving DecidableEq, Repr

/-- Gregorian leap-year rule (Python calendar.isleap / datetime). -/
def isLeap (y : Nat) : Bool :=
  (y % 4 = 0 && y % 100 ≠ 0) || y % 400 = 0

def daysInYear (y : Nat) : Nat :=
  if isLeap y then 366 else 365

/-- Days on the proleptic Gregorian timeline before January 1 of year y
(for y ≥ 1; Python date.toordinal-style counting). -/
def daysBeforeYear (y : Nat) : Nat :=
  365 * (y - 1) + ((y - 1) / 4 + (y - 1) / 400 - (y - 1) / 100)

/-- Absolute position of a datetime, in seconds; for valid component
values this is strictly monotone in the datetime order, so datetime
comparisons are embedded as comparisons of absSec. -/
def absSec (d : DT) : Nat :=
  (daysBeforeYear d.year + (d.doy - 1)) * 86400
    + d.hour * 3600 + d.minute * 60 + d.second

/-- Component-range invariant of every Python datetime the program
builds (year 1..9999, day-of-year within the year, h/m/s in range). -/
def ValidDT (d : DT) : Prop :=
  1 ≤ d.year ∧ 1 ≤ d.doy ∧ d.doy ≤ daysInYear d.year ∧
    d.hour < 24 ∧ d.minute < 60 ∧ d.second < 60

instance (d : DT) : Decidable (ValidDT d) := by
  unfold ValidDT; infer_instance

/-- datetime(t.year, t.month, t.day, t.hour): truncation to the hour. -/
def floorHour (d : DT) : DT :=
  ⟨d.year, d.doy, d.hour, 0, 0⟩

/-- t + timedelta(hours=1) on the component representation. -/
def addHour (d : DT) : DT :=
  if d.hour + 1 < 24 then ⟨d.year, d.doy, d.hour + 1, d.minute, d.second⟩
  else if d.doy + 1 ≤ daysInYear d.year then ⟨d.year, d.doy + 1, 0, d.minute, d.second⟩
  else ⟨d.year + 1, 1, 0, d.minute, d.second⟩

/-! ## strptime(timestamp, "%Y%j%H%M%S")

CPython _strptime compiles the format to the regex
(\d\d\d\d)(j)(H)(M)(S) where j matches a 1-3 digit day-of-year 1..366,
H a 1-2 digit hour 0..23, M a 1-2 digit minute 0..59, S a 1-2 digit
second 0..61, each alternation listing longer forms first; the whole
string must be consumed.  Candidate lists in longest-first order plus
a first-success search implement exactly this backtracking.  The %j
value is then resolved against the year by ordinal arithmetic (a
day-of-year past the year's end rolls into the next year), and
datetime construction rejects second ≥ 60 and years outside 1..9999. -/

def digitVal? (c : Char) : Option Nat :=
  if c.isDigit then some (c.toNat - 48) else none

/-- Match exactly one digit with value in lo..hi. -/
def pick1 (lo hi : Nat) : List Char → Option (Nat × List Char)
  | [] => none
  | c :: rest =>
    match digitVal? c with
    | none => none
    | some v => if lo ≤ v ∧ v ≤ hi then some (v, rest) else none

/-- Match exactly two digits with combined value in lo..hi. -/
def pick2 (lo hi : Nat) : List Char → Option (Nat × List Char)
  | c :: d :: rest =>
    (match digitVal? c, digitVal? d with
      | some x, some y =>
        if lo ≤ 10 * x + y ∧ 10 * x + y ≤ hi then some (10 * x + y, rest) else none
      | _, _ => none)
  | _ => none

/-- Match exactly three digits with combined value in lo..hi. -/
def pick3 (lo hi : Nat) : List Char → Option (Nat × List Char)
  | c :: d :: e :: rest =>
    (match digitVal? c, digitVal? d, digitVal? e with
      | some x, some y, some z =>
        if lo ≤ 100 * x + 10 * y + z ∧ 100 * x + 10 * y + z ≤ hi then
          some (100 * x + 10 * y + z, rest)
        else none
      | _, _, _ => none)
  | _ => none

/-- %j candidates, longest first (day-of-year 1..366). -/
def jCands (l : List Char) : List (Nat × List Char) :=
  (pick3 1 366 l).toList ++ (pick2 1 99 l).toList ++ (pick1 1 9 l).toList

/-- %H candidates, longest first (hour 0..23). -/
def hCands (l : List Char) : List (Nat × List Char) :=
  (pick2 0 23 l).toList ++ (pick1 0 9 l).toList

/-- %M candidates, longest first (minute 0..59). -/
def mCands (l : List Char) : List (Nat × List Char) :=
  (pick2 0 59 l).toList ++ (pick1 0 9 l).toList

/-- %S candidates, longest first (second 0..61, leap seconds included
by the regex; datetime construction rejects 60 and 61 afterwards). -/
def sCands (l : List Char) : List (Nat × List Char) :=
  (pick2 0 61 l).toList ++ (pick1 0 9 l).toList

/-- The regex phase of strptime("%Y%j%H%M%S"): 4-digit year, then
backtracking over the j/H/M/S candidates; the remainder must be empty. -/
def strptimeCore (l : List Char) : Option (Nat × Nat × Nat × Nat × Nat) :=
  match l with
  | c1 :: c2 :: c3 :: c4 :: rest =>
    (match digitVal? c1, digitVal? c2, digitVal? c3, digitVal? c4 with
      | some a, some b, some c, some d =>
        (jCands rest).findSome? fun jr =>
          (hCands jr.2).findSome? fun hr =>
            (mCands hr.2).findSome? fun mr =>
              (sCands mr.2).findSome? fun sr =>
                if sr.2 = [] then
                  some (1000 * a + 100 * b + 10 * c + d, jr.1, hr.1, mr.1, sr.1)
                else none
      | _, _, _, _ => none)
  | _ => none

/-- datetime.strptime(s, "%Y%j%H%M%S") as a partial function to DT:
none models the ValueError raised on a non-matching string, an
out-of-range constructed component, or a year outside 1..9999. -/
def strptimeYjhms (l : List Char) : Option DT :=
  match strptimeCore l with
  | none => none
  | some (y, j, hh, mm, ss) =>
    if y = 0 then none
    else if 60 ≤ ss then none
    else if j ≤ daysInYear y then some ⟨y, j, hh, mm, ss⟩
    else if y = 9999 then none
    else some ⟨y + 1, j - daysInYear y, hh, mm, ss⟩

/-! ## The mirroring engine (mirror_s3)

The S3 filesystem and the OS are an explicit environment of pure
functions; the local filesystem is a map from path to file size; the
printed progress messages and the performed effects are an event trace.
Exception kinds distinguish the Python exception classes the source can
raise: FileNotFoundError (the except clause of mirror_s3 catches
exactly this class), ValueError (strptime), IndexError (file_parts[3]),
OSError (makedirs) and a generic transfer failure. -/

/-- Python exception classes relevant to mirror_s3. -/
inductive ErrKind where
  | fileNotFound
  | valueError
  | indexError
  | osError
  | transferError
deriving DecidableEq, Repr

/-- The external world: fs.ls, fs.info(...)["Size"], os.makedirs and
fs.get, each a pure function of the path (the remote store is read-only
and assumed stable for a run). -/
structure Env where
  ls : String → Except ErrKind (List String)
  size : String → Nat
  mkdir : String → Except ErrKind Unit
  get : String → Except ErrKind Unit

/-- The local filesystem: file path ↦ size of the regular file there,
none when os.path.isfile is false. -/
def Loc : Type := String → Option Nat

/-- The arguments of mirror_s3 (mirror_dir, start_time, end_time,
overwrite, test, fn_filter; products and sats appear separately).
Python defaults: sats=["16"], overwrite=False, test=False,
fn_filter=None. -/
structure Args where
  mirror_dir : String
  start_time : DT
  end_time : DT
  overwrite : Bool
  test : Bool
  fn_filter : Option (String → Bool)

/-- Observable actions of a run: the progress prints and the two
filesystem effects (directory creation and file transfer). -/
inductive Event where
  | announce (fn : String)
  | transfer (aws_file local_file : String)
  | skip (fn : String)
  | mkdir (dir : String)
  | missing (aws_dir : String)
deriving DecidableEq, Repr

/-- Lines 44-46 of should_download: file_parts = fn.split("_");
timestamp = file_parts[3][1:-1]; datetime.strptime(timestamp,
"%Y%j%H%M%S").  A missing field raises IndexError, a non-matching
timestamp raises ValueError; both are hard errors. -/
def parseFileTime (fn : String) : Except ErrKind DT :=
  match (splitOnChar '_' fn.data).get? 3 with
  | none => .error .indexError
  | some f3 =>
    match strptimeYjhms (f3.drop 1).dropLast with
    | none => .error .valueError
    | some t => .ok t

/-- The should_download closure (lines 40-59).  Returns the decision,
or the exception kind its body raises. -/
def should_download (a : Args) (awsSize : String → Nat) (loc : Loc)
    (aws_file local_file : String) : Except ErrKind Bool :=
  let fn := lastComponent aws_file
  if (match a.fn_filter with | some flt => !(flt fn) | none => false) then
    .ok false
  else
    match parseFileTime fn with
    | .error e => .error e
    | .ok file_time =>
      if ¬(absSec a.start_time ≤ absSec file_time ∧
            absSec file_time < absSec a.end_time) then
        .ok false
      else if a.overwrite = false then
        match loc local_file with
        | some local_size => .ok (decide (awsSize aws_file ≠ local_size))
        | none => .ok true
      else
        .ok true

/-- One transfer task: (aws_file, local_file). -/
def Task : Type := String × String

/-- The for-path loop of mirror_s3 (lines 94-103): build the jobs list,
printing a skip message for each rejected file.  A should_download
exception aborts the loop (the events printed so far are irrelevant to
every claim and are dropped on the error path). -/
def collectTasks (a : Args) (env : Env) (loc : Loc) (aws_dir local_dir : String) :
    List String → Except ErrKind (List Task × List Event)
  | [] => .ok ([], [])
  | path :: files =>
    let fn := lastComponent path
    let aws_file := aws_dir ++ "/" ++ fn
    let local_file := pathJoin2 local_dir fn
    match should_download a env.size loc aws_file local_file with
    | .error e => .error e
    | .ok true =>
      match collectTasks a env loc aws_dir local_dir files with
      | .error e => .error e
      | .ok (ts, evs) => .ok ((aws_file, local_file) :: ts, evs)
    | .ok false =>
      match collectTasks a env loc aws_dir local_dir files with
      | .error e => .error e
      | .ok (ts, evs) => .ok (ts, .skip fn :: evs)

/-- dask.compute over the delayed download closures (lines 61-67, 105):
each task announces itself, and unless test is set copies the remote
object, leaving a local file whose size is the store-reported size.
A failing transfer ends the batch with the remaining tasks unexecuted;
the state reached so far persists. -/
def runTasks (env : Env) (test : Bool) :
    Loc → List Task → Loc × List Event × Option ErrKind
  | loc, [] => (loc, [], none)
  | loc, t :: ts =>
    let ev := Event.announce (lastComponent t.1)
    if test then
      match runTasks env test loc ts with
      | (loc1, evs, e) => (loc1, ev :: evs, e)
    else
      match env.get t.1 with
      | .error e => (loc, [ev], some e)
      | .ok _ =>
        let loc1 : Loc := fun p => if p = t.2 then some (env.size t.1) else loc p
        match runTasks env test loc1 ts with
        | (loc2, evs, e) => (loc2, ev :: Event.transfer t.1 t.2 :: evs, e)

/-- One (product, sat, hour) partition of the key space. -/
structure Bucket where
  product : String
  sat : String
  h : DT

/-- Line 82-85: "s3://" + "/".join(["noaa-goes"+sat, product, %Y, %j, %H]). -/
def awsDirOf (b : Bucket) : String :=
  "s3://" ++ joinSlash ["noaa-goes" ++ b.sat, b.product,
    natStr b.h.year, padNum 3 b.h.doy, padNum 2 b.h.hour]

/-- Lines 87-90: os.path.join(mirror_dir, "noaa-goes"+sat, product, %Y, %j, %H). -/
def localDirOf (mirror_dir : String) (b : Bucket) : String :=
  pathJoin mirror_dir ["noaa-goes" ++ b.sat, b.product,
    natStr b.h.year, padNum 3 b.h.doy, padNum 2 b.h.hour]

/-- Outcome of the body of the per-bucket try block. -/
structure BucketResult where
  events : List Event
  loc : Loc
  tasks : List Task
  err : Option ErrKind

/-- The try-block body for one bucket (lines 81-105): list the bucket,
create the local directory (skipped in test mode), collect the download
tasks, run them.  err records the exception leaving the block, if any;
events and loc record what happened before it was raised. -/
def processBucket (env : Env) (a : Args) (loc : Loc) (b : Bucket) : BucketResult :=
  match env.ls (awsDirOf b) with
  | .error e => ⟨[], loc, [], some e⟩
  | .ok files =>
    let local_dir := localDirOf a.mirror_dir b
    match (if a.test then Except.ok () else env.mkdir local_dir) with
    | .error e => ⟨[], loc, [], some e⟩
    | .ok _ =>
      let mkEvs := if a.test then [] else [Event.mkdir local_dir]
      match collectTasks a env loc (awsDirOf b) local_dir files with
      | .error e => ⟨mkEvs, loc, [], some e⟩
      | .ok (tasks, skipEvs) =>
        match runTasks env a.test loc tasks with
        | (loc1, dlEvs, e) => ⟨mkEvs ++ skipEvs ++ dlEvs, loc1, tasks, e⟩

/-- What the driver records for a visited bucket: either the
"Unable to find ..." message or the batch of issued tasks. -/
inductive Outcome where
  | missing (aws_dir : String)
  | done (tasks : List Task)

/-- Driver state: local filesystem, event trace, per-bucket record. -/
structure RunState where
  loc : Loc
  events : List Event
  outcomes : List Outcome

/-- The bucket loop with its try/except FileNotFoundError (lines
80-110): a FileNotFoundError is absorbed (the failure is printed and
the loop advances); any other exception terminates the whole run. -/
def runBuckets (env : Env) (a : Args) :
    RunState → List Bucket → RunState × Option ErrKind
  | st, [] => (st, none)
  | st, b :: bs =>
    let r := processBucket env a st.loc b
    match r.err with
    | none =>
      runBuckets env a
        ⟨r.loc, st.events ++ r.events, st.outcomes ++ [.done r.tasks]⟩ bs
    | some e =>
      if e = .fileNotFound then
        runBuckets env a
          ⟨r.loc, st.events ++ r.events ++ [.missing (awsDirOf b)],
            st.outcomes ++ [.missing (awsDirOf b)]⟩ bs
      else
        (⟨r.loc, st.events ++ r.events, st.outcomes⟩, some e)

/-- Lines 72-79: first_hour/last_hour are the window endpoints truncated
to the hour; the while loop visits every hour h with
first_hour ≤ h ≤ last_hour.  The loop is embedded with a fuel argument
that exactly covers the iteration count. -/
def hourRange (fuel : Nat) (h last : DT) : List DT :=
  match fuel with
  | 0 => []
  | f + 1 =>
    if absSec h ≤ absSec last then h :: hourRange f (addHour h) last
    else []

/-- The hour sequence mirror_s3 visits for one (product, sat) pair. -/
def mirrorHours (start_time end_time : DT) : List DT :=
  let first := floorHour start_time
  let last := floorHour end_time
  hourRange ((absSec last - absSec first) / 3600 + 1) first last

/-- The bucket sequence of a whole run: products × sats × hours in
loop-nesting order. -/
def mirrorBuckets (products sats : List String) (start_time end_time : DT) :
    List Bucket :=
  products.flatMap fun p =>
    sats.flatMap fun s =>
      (mirrorHours start_time end_time).map fun h => ⟨p, s, h⟩

/-- mirror_s3 itself: run the driver over the bucket sequence starting
from the given local filesystem. -/
def mirror (env : Env) (a : Args) (products sats : List String) (loc : Loc) :
    RunState × Option ErrKind :=
  runBuckets env a ⟨loc, [], []⟩
    (mirrorBuckets products sats a.start_time a.end_time)

/-! ## Theorems about the diff decision (should_download) -/

/-- The supplied filename predicate accepts fn (or no predicate is set). -/
def filterPasses (a : Args) (fn : String) : Prop :=
  ∀ flt, a.fn_filter = some flt → flt fn = true

theorem filter_guard_false (a : Args) (fn : String)
    (h : filterPasses a fn) :
    (match a.fn_filter with | some flt => !(flt fn) | none => false) = false := by
  cases hf : a.fn_filter with
  | none => rfl
  | some flt => simp [h flt hf]

/-- C1: an object whose parsed file time falls outside the half-open
window [start_time, end_time) is always rejected: should_download
returns false for it, whatever the overwrite flag, the predicate, the
local filesystem and the remote sizes say. -/
theorem window_reject (a : Args) (awsSize : String → Nat) (loc : Loc)
    (aws_file local_file : String) (ft : DT)
    (hparse : parseFileTime (lastComponent aws_file) = .ok ft)
    (hout : ¬(absSec a.start_time ≤ absSec ft ∧ absSec ft < absSec a.end_time)) :
    should_download a awsSize loc aws_file local_file = .ok false := by
  unfold should_download
  cases hf : (match a.fn_filter with | some flt => !(flt (lastComponent aws_file)) | none => false) with
  | true => simp [hf]
  | false => simp [hf, hparse, hout]

/-- C2: for an in-window object that passes the predicate, overwrite =
true accepts unconditionally; overwrite = false accepts exactly when no
local file exists or the existing local file's size differs from the
remote size, and rejects when a local file of the remote size exists. -/
theorem size_diff_decision (a : Args) (awsSize : String → Nat) (loc : Loc)
    (aws_file local_file : String) (ft : DT)
    (hflt : filterPasses a (lastComponent aws_file))
    (hparse : parseFileTime (lastComponent aws_file) = .ok ft)
    (hin : absSec a.start_time ≤ absSec ft ∧ absSec ft < absSec a.end_time) :
    (a.overwrite = true →
      should_download a awsSize loc aws_file local_file = .ok true) ∧
    (a.overwrite = false →
      (should_download a awsSize loc aws_file local_file = .ok true ↔
        (loc local_file = none ∨
          ∃ sz, loc local_file = some sz ∧ awsSize aws_file ≠ sz))) ∧
    (a.overwrite = false → loc local_file = some (awsSize aws_file) →
      should_download a awsSize loc aws_file local_file = .ok false) := by
  have hg := filter_guard_false a (lastComponent aws_file) hflt
  unfold should_download
  refine ⟨fun hov => ?_, fun hov => ?_, fun hov hl => ?_⟩
  · simp [hg, hparse, hin, hov]
  · simp only [hg, hparse, hin, hov]
    cases hl : loc local_file with
    | none => simp [hl]
    | some sz =>
      by_cases hsz : awsSize aws_file = sz <;> simp [hl, hsz]
  · simp [hg, hparse, hin, hov, hl]

/-- C5: when the filename predicate rejects an object, should_download
returns false without error, for every filename — including filenames
on which the timestamp parse would fail — and without consulting the
local or remote state. -/
theorem predicate_short_circuit (a : Args) (awsSize : String → Nat) (loc : Loc)
    (aws_file local_file : String) (flt : String → Bool)
    (hf : a.fn_filter = some flt)
    (hrej : flt (lastComponent aws_file) = false) :
    should_download a awsSize loc aws_file local_file = .ok false := by
  unfold should_download
  simp [hf, hrej]

/-- C10: with overwrite = true the decision is a function of the
filename, the predicate and the window alone: it is identical across
any two local filesystem states and any two remote size maps. -/
theorem overwrite_noninterference (a : Args) (sz1 sz2 : String → Nat)
    (loc1 loc2 : Loc) (aws_file local_file : String)
    (hov : a.overwrite = true) :
    should_download a sz1 loc1 aws_file local_file =
      should_download a sz2 loc2 aws_file local_file := by
  unfold should_download
  cases hf : (match a.fn_filter with | some flt => !(flt (lastComponent aws_file)) | none => false) with
  | true => simp [hf]
  | false =>
    simp only [hf]
    cases parseFileTime (lastComponent aws_file) with
    | error e => rfl
    | ok ft =>
      by_cases hw : absSec a.start_time ≤ absSec ft ∧ absSec ft < absSec a.end_time <;>
        simp [hw, hov]

/-! ## Theorems about the driver (error propagation, dry run) -/

/-- One driver step when the bucket's try block finished cleanly. -/
theorem runBuckets_cons_none (env : Env) (a : Args) (st : RunState)
    (b : Bucket) (bs : List Bucket)
    (h : (processBucket env a st.loc b).err = none) :
    runBuckets env a st (b :: bs) =
      runBuckets env a ⟨(processBucket env a st.loc b).loc,
        st.events ++ (processBucket env a st.loc b).events,
        st.outcomes ++ [.done (processBucket env a st.loc b).tasks]⟩ bs := by
  simp only [runBuckets, h]

/-- One driver step when the bucket's try block raised
FileNotFoundError: the failure is recorded and the loop continues with
the remaining buckets. -/
theorem runBuckets_cons_fnf (env : Env) (a : Args) (st : RunState)
    (b : Bucket) (bs : List Bucket)
    (h : (processBucket env a st.loc b).err = some ErrKind.fileNotFound) :
    runBuckets env a st (b :: bs) =
      runBuckets env a ⟨(processBucket env a st.loc b).loc,
        st.events ++ (processBucket env a st.loc b).events ++ [.missing (awsDirOf b)],
        st.outcomes ++ [.missing (awsDirOf b)]⟩ bs := by
  simp only [runBuckets, h, if_pos rfl, if_true]

/-- One driver step when the bucket's try block raised anything else:
the loop stops at once, the remaining buckets are dropped, and the
error is the run's returned result. -/
theorem runBuckets_cons_err (env : Env) (a : Args) (st : RunState)
    (b : Bucket) (bs : List Bucket) (e : ErrKind)
    (h : (processBucket env a st.loc b).err = some e)
    (hfnf : e ≠ ErrKind.fileNotFound) :
    runBuckets env a st (b :: bs) =
      (⟨(processBucket env a st.loc b).loc,
        st.events ++ (processBucket env a st.loc b).events, st.outcomes⟩, some e) := by
  simp only [runBuckets, h, if_neg hfnf]

/-- A clean prefix composes: the driver run over bs1 ++ bs2 restarts
from the state the clean run over bs1 reached. -/
theorem runBuckets_append (env : Env) (a : Args) (st : RunState)
    (bs1 bs2 : List Bucket) (h : (runBuckets env a st bs1).2 = none) :
    runBuckets env a st (bs1 ++ bs2) =
      runBuckets env a (runBuckets env a st bs1).1 bs2 := by
  induction bs1 generalizing st with
  | nil => rfl
  | cons b bs1 ih =>
    rw [List.cons_append]
    cases hr : (processBucket env a st.loc b).err with
    | none =>
      rw [runBuckets_cons_none env a st b (bs1 ++ bs2) hr,
        runBuckets_cons_none env a st b bs1 hr]
      rw [runBuckets_cons_none env a st b bs1 hr] at h
      exact ih _ h
    | some e =>
      by_cases hfnf : e = ErrKind.fileNotFound
      · subst hfnf
        rw [runBuckets_cons_fnf env a st b (bs1 ++ bs2) hr,
          runBuckets_cons_fnf env a st b bs1 hr]
        rw [runBuckets_cons_fnf env a st b bs1 hr] at h
        exact ih _ h
      · rw [runBuckets_cons_err env a st b bs1 e hr hfnf] at h
        exact absurd h (by simp)

/-- A run whose returned error is none recorded one outcome per bucket. -/
theorem runBuckets_clean_length (env : Env) (a : Args) (st : RunState)
    (bs : List Bucket) (h : (runBuckets env a st bs).2 = none) :
    (runBuckets env a st bs).1.outcomes.length = st.outcomes.length + bs.length := by
  induction bs generalizing st with
  | nil => simp [runBuckets]
  | cons b bs ih =>
    cases hr : (processBucket env a st.loc b).err with
    | none =>
      rw [runBuckets_cons_none env a st b bs hr] at h ⊢
      have := ih _ h
      simp only [List.length_append, List.length_cons, List.length_nil] at this ⊢
      omega
    | some e =>
      by_cases hfnf : e = ErrKind.fileNotFound
      · subst hfnf
        rw [runBuckets_cons_fnf env a st b bs hr] at h ⊢
        have := ih _ h
        simp only [List.length_append, List.length_cons, List.length_nil] at this ⊢
        omega
      · rw [runBuckets_cons_err env a st b bs e hr hfnf] at h
        exact absurd h (by simp)

/-- A returned error is never FileNotFoundError, and it stopped the run
strictly before the last bucket's outcome could have been recorded. -/
theorem runBuckets_err_shape (env : Env) (a : Args) (st : RunState)
    (bs : List Bucket) :
    ∀ e, (runBuckets env a st bs).2 = some e →
      e ≠ ErrKind.fileNotFound ∧
      ∃ k, k < bs.length ∧
        (runBuckets env a st bs).1.outcomes.length = st.outcomes.length + k := by
  induction bs generalizing st with
  | nil => simp [runBuckets]
  | cons b bs ih =>
    intro e he
    cases hr : (processBucket env a st.loc b).err with
    | none =>
      rw [runBuckets_cons_none env a st b bs hr] at he ⊢
      obtain ⟨hne, k, hk, hlen⟩ := ih _ e he
      refine ⟨hne, k + 1, by simp; omega, ?_⟩
      simp only [List.length_append, List.length_cons, List.length_nil] at hlen ⊢
      omega
    | some e2 =>
      by_cases hfnf : e2 = ErrKind.fileNotFound
      · subst hfnf
        rw [runBuckets_cons_fnf env a st b bs hr] at he ⊢
        obtain ⟨hne, k, hk, hlen⟩ := ih _ e he
        refine ⟨hne, k + 1, by simp; omega, ?_⟩
        simp only [List.length_append, List.length_cons, List.length_nil] at hlen ⊢
        omega
      · rw [runBuckets_cons_err env a st b bs e2 hr hfnf] at he ⊢
        simp only [Option.some.injEq] at he
        subst he
        exact ⟨hfnf, 0, by simp, by simp⟩

/-- C4: the bucket loop absorbs exactly the FileNotFoundError
condition.  (i) A run whose returned error is none recorded one outcome
per bucket.  (ii) An error the run returns is never FileNotFoundError,
and it stopped the run strictly early.  (iii) For the bucket at any
position k reached after a clean prefix: if its try block raises
FileNotFoundError, the run continues over buckets k+1..n exactly as if
restarted on them with the failure recorded — a missing bucket never
prevents the later buckets from being processed; if it raises any other
error e, the whole run stops there and returns e to the caller — the
remaining buckets are dropped and only the k earlier buckets have
outcomes. -/
theorem bucket_isolation (env : Env) (a : Args) (st : RunState) (bs : List Bucket) :
    ((runBuckets env a st bs).2 = none →
      (runBuckets env a st bs).1.outcomes.length = st.outcomes.length + bs.length) ∧
    (∀ e, (runBuckets env a st bs).2 = some e →
      e ≠ ErrKind.fileNotFound ∧
      ∃ k, k < bs.length ∧
        (runBuckets env a st bs).1.outcomes.length = st.outcomes.length + k) ∧
    (∀ bs1 b bs2, bs = bs1 ++ b :: bs2 →
      (runBuckets env a st bs1).2 = none →
      ∀ e, (processBucket env a (runBuckets env a st bs1).1.loc b).err = some e →
        (e = ErrKind.fileNotFound →
          runBuckets env a st bs =
            runBuckets env a
              ⟨(processBucket env a (runBuckets env a st bs1).1.loc b).loc,
                (runBuckets env a st bs1).1.events ++
                  (processBucket env a (runBuckets env a st bs1).1.loc b).events ++
                  [.missing (awsDirOf b)],
                (runBuckets env a st bs1).1.outcomes ++ [.missing (awsDirOf b)]⟩ bs2) ∧
        (e ≠ ErrKind.fileNotFound →
          runBuckets env a st bs =
            (⟨(processBucket env a (runBuckets env a st bs1).1.loc b).loc,
              (runBuckets env a st bs1).1.events ++
                (processBucket env a (runBuckets env a st bs1).1.loc b).events,
              (runBuckets env a st bs1).1.outcomes⟩, some e) ∧
          (runBuckets env a st bs).2 = some e ∧
          (runBuckets env a st bs).1.outcomes.length =
            st.outcomes.length + bs1.length)) := by
  refine ⟨runBuckets_clean_length env a st bs, runBuckets_err_shape env a st bs, ?_⟩
  intro bs1 b bs2 hsplit hclean e herr
  subst hsplit
  constructor
  · intro hfnf
    subst hfnf
    rw [runBuckets_append env a st bs1 (b :: bs2) hclean]
    exact runBuckets_cons_fnf env a _ b bs2 herr
  · intro hfnf
    have heq : runBuckets env a st (bs1 ++ b :: bs2) =
        (⟨(processBucket env a (runBuckets env a st bs1).1.loc b).loc,
          (runBuckets env a st bs1).1.events ++
            (processBucket env a (runBuckets env a st bs1).1.loc b).events,
          (runBuckets env a st bs1).1.outcomes⟩, some e) := by
      rw [runBuckets_append env a st bs1 (b :: bs2) hclean]
      exact runBuckets_cons_err env a _ b bs2 e herr hfnf
    refine ⟨heq, ?_, ?_⟩
    · rw [heq]
    · rw [heq]
      exact runBuckets_clean_length env a st bs1 hclean

/-- An event that is neither a directory creation nor a transfer. -/
def nonWriting (ev : Event) : Prop :=
  match ev with
  | .mkdir _ => False
  | .transfer _ _ => False
  | _ => True

theorem runTasks_test (env : Env) (loc : Loc) (ts : List Task) :
    runTasks env true loc ts =
      (loc, ts.map (fun t => Event.announce (lastComponent t.1)), none) := by
  induction ts with
  | nil => rfl
  | cons t ts ih => simp [runTasks, ih]

theorem collectTasks_events_skip (a : Args) (env : Env) (loc : Loc)
    (aws_dir local_dir : String) (files : List String) (ts : List Task)
    (evs : List Event)
    (h : collectTasks a env loc aws_dir local_dir files = .ok (ts, evs)) :
    ∀ ev ∈ evs, ∃ fn, ev = Event.skip fn := by
  induction files generalizing ts evs with
  | nil =>
    simp only [collectTasks] at h
    cases h
    simp
  | cons f files ih =>
    simp only [collectTasks] at h
    cases hsd : should_download a env.size loc (aws_dir ++ "/" ++ lastComponent f)
        (pathJoin2 local_dir (lastComponent f)) with
    | error e => rw [hsd] at h; cases h
    | ok b =>
      rw [hsd] at h
      cases b with
      | true =>
        cases hc : collectTasks a env loc aws_dir local_dir files with
        | error e => rw [hc] at h; cases h
        | ok p =>
          rw [hc] at h
          cases h
          exact ih p.1 p.2 (by rw [hc])
      | false =>
        cases hc : collectTasks a env loc aws_dir local_dir files with
        | error e => rw [hc] at h; cases h
        | ok p =>
          rw [hc] at h
          cases h
          intro ev hev
          cases hev with
          | head => exact ⟨lastComponent f, rfl⟩
          | tail _ hm => exact ih p.1 p.2 (by rw [hc]) ev hm

theorem processBucket_test (env : Env) (a : Args) (loc : Loc) (b : Bucket)
    (ht : a.test = true) :
    (processBucket env a loc b).loc = loc ∧
    ∀ ev ∈ (processBucket env a loc b).events, nonWriting ev := by
  unfold processBucket
  cases hls : env.ls (awsDirOf b) with
  | error e => simp
  | ok files =>
    simp only [ht, if_pos rfl]
    cases hc : collectTasks a env loc (awsDirOf b) (localDirOf a.mirror_dir b) files with
    | error e => simp [ht]
    | ok p =>
      simp only [runTasks_test, ht, if_pos rfl, List.nil_append]
      refine ⟨rfl, fun ev hev => ?_⟩
      rcases List.mem_append.1 hev with hsk | han
      · obtain ⟨fn, rfl⟩ := collectTasks_events_skip a env loc _ _ files p.1 p.2 hc ev hsk
        trivial
      · obtain ⟨t, _, rfl⟩ := List.mem_map.1 han
        trivial

theorem runBuckets_test (env : Env) (a : Args) (st : RunState) (bs : List Bucket)
    (ht : a.test = true)
    (hev : ∀ ev ∈ st.events, nonWriting ev) :
    (runBuckets env a st bs).1.loc = st.loc ∧
    ∀ ev ∈ (runBuckets env a st bs).1.events, nonWriting ev := by
  induction bs generalizing st with
  | nil => exact ⟨rfl, hev⟩
  | cons b bs ih =>
    obtain ⟨hploc, hpev⟩ := processBucket_test env a st.loc b ht
    cases hr : (processBucket env a st.loc b).err with
    | none =>
      simp only [runBuckets, hr]
      have H := ih ⟨(processBucket env a st.loc b).loc,
        st.events ++ (processBucket env a st.loc b).events,
        st.outcomes ++ [.done (processBucket env a st.loc b).tasks]⟩
        (fun ev hm => by
          rcases List.mem_append.1 hm with h1 | h2
          · exact hev ev h1
          · exact hpev ev h2)
      exact ⟨H.1.trans hploc, H.2⟩
    | some e =>
      by_cases hfnf : e = ErrKind.fileNotFound
      · subst hfnf
        simp only [runBuckets, hr, if_pos rfl]
        have H := ih ⟨(processBucket env a st.loc b).loc,
          st.events ++ (processBucket env a st.loc b).events ++ [.missing (awsDirOf b)],
          st.outcomes ++ [.missing (awsDirOf b)]⟩
          (fun ev hm => by
            rcases List.mem_append.1 hm with h1 | h2
            · rcases List.mem_append.1 h1 with h3 | h4
              · exact hev ev h3
              · exact hpev ev h4
            · simp at h2; subst h2; trivial)
        exact ⟨H.1.trans hploc, H.2⟩
      · simp only [runBuckets, hr, if_neg hfnf]
        refine ⟨hploc, fun ev hm => ?_⟩
        rcases List.mem_append.1 hm with h1 | h2
        · exact hev ev h1
        · exact hpev ev h2

/-- C9: in dry-run mode (test = true) a whole mirror run leaves the
local filesystem untouched and its event trace contains no directory
creation and no transfer — only announcements and reports. -/
theorem dry_run_no_writes (env : Env) (a : Args) (products sats : List String)
    (loc : Loc) (ht : a.test = true) :
    (mirror env a products sats loc).1.loc = loc ∧
    ∀ ev ∈ (mirror env a products sats loc).1.events, nonWriting ev := by
  exact runBuckets_test env a ⟨loc, [], []⟩ _ ht (by simp)

/-! ## Calendar arithmetic and the hour sequence (C3) -/

theorem daysInYear_ge (y : Nat) : 365 ≤ daysInYear y := by
  unfold daysInYear
  split <;> omega

theorem daysBeforeYear_succ (y : Nat) (hy : 1 ≤ y) :
    daysBeforeYear (y + 1) = daysBeforeYear y + daysInYear y := by
  unfold daysBeforeYear daysInYear isLeap
  simp only [Nat.add_sub_cancel, Bool.or_eq_true, Bool.and_eq_true, decide_eq_true_eq]
  split
  · omega
  · omega

theorem daysBeforeYear_lt (y z : Nat) (hy : 1 ≤ y) (hz : y < z) :
    daysBeforeYear y + daysInYear y ≤ daysBeforeYear z := by
  induction z with
  | zero => omega
  | succ n ih =>
    rcases Nat.lt_succ_iff_lt_or_eq.1 hz with h | h
    · have := ih h
      have hstep := daysBeforeYear_succ n (by omega)
      omega
    · subst h
      rw [daysBeforeYear_succ y hy]

/-- absSec is injective on valid datetimes: distinct component tuples
occupy distinct timeline positions. -/
theorem absSec_inj (a b : DT) (ha : ValidDT a) (hb : ValidDT b)
    (h : absSec a = absSec b) : a = b := by
  obtain ⟨ha1, ha2, ha3, ha4, ha5, ha6⟩ := ha
  obtain ⟨hb1, hb2, hb3, hb4, hb5, hb6⟩ := hb
  unfold absSec at h
  have hyear : a.year = b.year := by
    rcases Nat.lt_trichotomy a.year b.year with hlt | heq | hgt
    · have h1 := daysBeforeYear_lt a.year b.year ha1 hlt
      have h2 := daysInYear_ge a.year
      omega
    · exact heq
    · have h1 := daysBeforeYear_lt b.year a.year hb1 hgt
      have h2 := daysInYear_ge b.year
      omega
  cases a with
  | mk ay adoy ah am asec =>
    cases b with
    | mk byr bdoy bh bm bsec =>
      dsimp only at hyear ha2 ha3 ha4 ha5 ha6 hb2 hb3 hb4 hb5 hb6 h
      subst hyear
      simp only [DT.mk.injEq, true_and]
      omega

theorem addHour_absSec (d : DT) (hd : ValidDT d) :
    absSec (addHour d) = absSec d + 3600 ∧ ValidDT (addHour d) := by
  obtain ⟨h1, h2, h3, h4, h5, h6⟩ := hd
  have hstep := daysBeforeYear_succ d.year h1
  have hge1 := daysInYear_ge (d.year + 1)
  have hge0 := daysInYear_ge d.year
  unfold addHour
  by_cases hh : d.hour + 1 < 24
  · rw [if_pos hh]
    unfold absSec ValidDT
    dsimp only
    exact ⟨by omega, by omega⟩
  · rw [if_neg hh]
    by_cases hdoy : d.doy + 1 ≤ daysInYear d.year
    · rw [if_pos hdoy]
      unfold absSec ValidDT
      dsimp only
      exact ⟨by omega, by omega⟩
    · rw [if_neg hdoy]
      unfold absSec ValidDT
      dsimp only
      exact ⟨by omega, by omega⟩

/-- The first k+1 hourly steps from h. -/
def hseq : Nat → DT → List DT
  | 0, _ => []
  | k + 1, h => h :: hseq k (addHour h)

/-- k applications of addHour. -/
def addHourN : Nat → DT → DT
  | 0, h => h
  | k + 1, h => addHourN k (addHour h)

theorem addHourN_absSec (k : Nat) (h : DT) (hv : ValidDT h) :
    absSec (addHourN k h) = absSec h + 3600 * k ∧ ValidDT (addHourN k h) := by
  induction k generalizing h with
  | zero => simpa [addHourN] using hv
  | succ n ih =>
    obtain ⟨hstep, hvstep⟩ := addHour_absSec h hv
    obtain ⟨ih1, ih2⟩ := ih (addHour h) hvstep
    refine ⟨?_, ih2⟩
    simp only [addHourN, ih1, hstep]
    ring

theorem hourRange_eq_hseq (last : DT) (k : Nat) :
    ∀ h : DT, ValidDT h → absSec last = absSec h + 3600 * k →
      hourRange (k + 1) h last = hseq (k + 1) h := by
  induction k with
  | zero =>
    intro h hv habs
    unfold hourRange hseq
    rw [if_pos (by omega)]
    rfl
  | succ n ih =>
    intro h hv habs
    obtain ⟨hstep, hvstep⟩ := addHour_absSec h hv
    have hrec := ih (addHour h) hvstep (by omega)
    unfold hourRange
    rw [if_pos (by omega)]
    unfold hseq
    rw [hrec]

theorem hseq_head (k : Nat) (h : DT) : (hseq (k + 1) h).head? = some h := rfl

theorem hseq_getLast (k : Nat) :
    ∀ h : DT, (hseq (k + 1) h).getLast? = some (addHourN k h) := by
  induction k with
  | zero => intro h; rfl
  | succ n ih =>
    intro h
    have e1 : hseq (n + 1 + 1) h = h :: addHour h :: hseq n (addHour (addHour h)) := rfl
    have e2 : addHour h :: hseq n (addHour (addHour h)) = hseq (n + 1) (addHour h) := rfl
    rw [e1, List.getLast?_cons_cons, e2, ih (addHour h)]
    rfl

theorem hseq_chain (k : Nat) :
    ∀ h : DT, List.Chain' (fun x y => y = addHour x) (hseq k h) := by
  induction k with
  | zero => intro h; simp [hseq]
  | succ n ih =>
    intro h
    cases n with
    | zero => simp [hseq]
    | succ m =>
      have e1 : hseq (m + 1 + 1) h = h :: addHour h :: hseq m (addHour (addHour h)) := rfl
      have e2 : addHour h :: hseq m (addHour (addHour h)) = hseq (m + 1) (addHour h) := rfl
      rw [e1, List.chain'_cons]
      refine ⟨rfl, ?_⟩
      rw [e2]
      exact ih (addHour h)

theorem hseq_mem_gt (k : Nat) :
    ∀ h x : DT, ValidDT h → x ∈ hseq k (addHour h) → absSec h < absSec x := by
  induction k with
  | zero => intro h x _ hx; simp [hseq] at hx
  | succ n ih =>
    intro h x hv hx
    obtain ⟨hstep, hvstep⟩ := addHour_absSec h hv
    rcases hx with _ | ⟨_, hx⟩
    · omega
    · have := ih (addHour h) x hvstep hx
      omega

theorem hseq_pairwise (k : Nat) :
    ∀ h : DT, ValidDT h →
      List.Pairwise (fun x y => absSec x < absSec y) (hseq k h) := by
  induction k with
  | zero => intro h _; simp [hseq]
  | succ n ih =>
    intro h hv
    obtain ⟨hstep, hvstep⟩ := addHour_absSec h hv
    refine List.pairwise_cons.2 ⟨fun x hx => hseq_mem_gt n h x hv hx, ih (addHour h) hvstep⟩

theorem floorHour_valid (d : DT) (hd : ValidDT d) : ValidDT (floorHour d) := by
  obtain ⟨h1, h2, h3, h4, _, _⟩ := hd
  unfold ValidDT floorHour
  dsimp only
  omega

/-- The hour-truncated position is 3600-aligned. -/
theorem absSec_floorHour (d : DT) :
    absSec (floorHour d) =
      3600 * ((daysBeforeYear d.year + (d.doy - 1)) * 24 + d.hour) := by
  unfold absSec floorHour
  dsimp only
  ring

theorem absSec_floorHour_le (d : DT) (hd : ValidDT d) :
    absSec (floorHour d) ≤ absSec d ∧ absSec d < absSec (floorHour d) + 3600 := by
  obtain ⟨_, _, _, _, h5, h6⟩ := hd
  unfold absSec floorHour
  dsimp only
  omega

/-- C3: for start_time < end_time, the visited hour sequence is
non-empty, starts at the hour containing start_time, ends at the hour
containing end_time (inclusive, although end_time is exclusive for
object filtering), advances by exactly one hour per step, is strictly
increasing — and every (product, sat) pair iterates this same
sequence. -/
theorem hour_bucket_sequence (start_time end_time : DT)
    (hs : ValidDT start_time) (he : ValidDT end_time)
    (hlt : absSec start_time < absSec end_time) :
    mirrorHours start_time end_time ≠ [] ∧
    (mirrorHours start_time end_time).head? = some (floorHour start_time) ∧
    (mirrorHours start_time end_time).getLast? = some (floorHour end_time) ∧
    List.Chain' (fun x y => y = addHour x) (mirrorHours start_time end_time) ∧
    List.Pairwise (fun x y => absSec x < absSec y) (mirrorHours start_time end_time) ∧
    ∀ p s : String, (mirrorBuckets [p] [s] start_time end_time).map Bucket.h =
      mirrorHours start_time end_time := by
  have hfs := floorHour_valid start_time hs
  have hfe := floorHour_valid end_time he
  have hb1 := absSec_floorHour_le start_time hs
  have hb2 := absSec_floorHour_le end_time he
  have ha1 := absSec_floorHour start_time
  have ha2 := absSec_floorHour end_time
  set A := (daysBeforeYear start_time.year + (start_time.doy - 1)) * 24 + start_time.hour with hA
  set B := (daysBeforeYear end_time.year + (end_time.doy - 1)) * 24 + end_time.hour with hB
  have hAB : A ≤ B := by omega
  have hdiff : absSec (floorHour end_time) - absSec (floorHour start_time) = 3600 * (B - A) := by
    omega
  have hfuel : (absSec (floorHour end_time) - absSec (floorHour start_time)) / 3600 + 1 =
      (B - A) + 1 := by
    rw [hdiff, Nat.mul_div_cancel_left _ (by omega)]
  have habs : absSec (floorHour end_time) = absSec (floorHour start_time) + 3600 * (B - A) := by
    omega
  have hmain : mirrorHours start_time end_time = hseq ((B - A) + 1) (floorHour start_time) := by
    unfold mirrorHours
    dsimp only
    rw [hfuel]
    exact hourRange_eq_hseq (floorHour end_time) (B - A) (floorHour start_time) hfs habs
  have hlast : addHourN (B - A) (floorHour start_time) = floorHour end_time := by
    obtain ⟨habsN, hvN⟩ := addHourN_absSec (B - A) (floorHour start_time) hfs
    exact absSec_inj _ _ hvN hfe (by omega)
  refine ⟨?_, ?_, ?_, ?_, ?_, ?_⟩
  · rw [hmain]; simp [hseq]
  · rw [hmain]; exact hseq_head _ _
  · rw [hmain, hseq_getLast, hlast]
  · rw [hmain]; exact hseq_chain _ _
  · rw [hmain]; exact hseq_pairwise _ _ hfs
  · intro p s
    simp only [mirrorBuckets, List.flatMap_cons, List.flatMap_nil, List.append_nil,
      List.map_map]
    have hid : (Bucket.h ∘ fun h => (⟨p, s, h⟩ : Bucket)) = id := rfl
    rw [hid, List.map_id]

/-! ## Decimal strings and the timestamp convention (C7) -/

/-- Value of a decimal digit string (most significant first). -/
def charsVal (l : List Char) : Nat :=
  l.foldl (fun a c => 10 * a + (c.toNat - 48)) 0

/-- Every character is a decimal digit. -/
def AllDigits (l : List Char) : Prop :=
  ∀ c ∈ l, c.isDigit = true

theorem digitChar_isDigit (n : Nat) (h : n < 10) : (digitChar n).isDigit = true := by
  interval_cases n <;> decide

theorem digitChar_toNat (n : Nat) (h : n < 10) : (digitChar n).toNat = 48 + n := by
  interval_cases n <;> decide

theorem charsVal_append_singleton (l : List Char) (c : Char) :
    charsVal (l ++ [c]) = 10 * charsVal l + (c.toNat - 48) := by
  simp [charsVal, List.foldl_append]

theorem charsVal_replicate_zero (k : Nat) (l : List Char) :
    charsVal (List.replicate k '0' ++ l) = charsVal l := by
  induction k with
  | zero => simp
  | succ n ih =>
    simp only [List.replicate_succ, List.cons_append]
    show List.foldl _ (10 * 0 + ('0'.toNat - 48)) _ = _
    simpa [charsVal] using ih

theorem natStrCore_spec (fuel : Nat) :
    ∀ n, n < fuel →
      natStrCore fuel n ≠ [] ∧ AllDigits (natStrCore fuel n) ∧
        charsVal (natStrCore fuel n) = n ∧
        ∀ k, 1 ≤ k → n < 10 ^ k → (natStrCore fuel n).length ≤ k := by
  induction fuel with
  | zero =>
    intro n hn
    omega
  | succ f ih =>
    intro n hn
    have hunf : natStrCore (f + 1) n =
        if n < 10 then [digitChar n]
        else natStrCore f (n / 10) ++ [digitChar (n % 10)] := by
      conv_lhs => rw [natStrCore]
    by_cases hsmall : n < 10
    · rw [hunf, if_pos hsmall]
      refine ⟨by simp, ?_, ?_, ?_⟩
      · intro c hc
        rcases List.mem_singleton.1 hc with rfl
        exact digitChar_isDigit n hsmall
      · simp [charsVal, digitChar_toNat n hsmall]
      · intro k hk _
        simpa using hk
    · rw [hunf, if_neg hsmall]
      have hdivlt : n / 10 < n := Nat.div_lt_self (by omega) (by omega)
      obtain ⟨hne, hdig, hval, hlen⟩ := ih (n / 10) (by omega)
      refine ⟨by simp, ?_, ?_, ?_⟩
      · intro c hc
        rcases List.mem_append.1 hc with hc | hc
        · exact hdig c hc
        · rcases List.mem_singleton.1 hc with rfl
          exact digitChar_isDigit _ (Nat.mod_lt _ (by omega))
      · rw [charsVal_append_singleton, hval, digitChar_toNat _ (Nat.mod_lt _ (by omega))]
        omega
      · intro k hk hnk
        have hk2 : 2 ≤ k := by
          by_contra hcon
          have : k = 1 := by omega
          subst this
          simp at hnk
          omega
        have hksub : k - 1 + 1 = k := by omega
        have hpow : 10 ^ k = 10 ^ (k - 1) * 10 := by
          conv_lhs => rw [← hksub, pow_succ]
        have hdiv : n / 10 < 10 ^ (k - 1) := by
          rw [Nat.div_lt_iff_lt_mul (by omega)]
          omega
        have := hlen (k - 1) (by omega) hdiv
        simp only [List.length_append, List.length_singleton]
        omega

theorem padNum_spec (w n : Nat) (hw : 1 ≤ w) (h : n < 10 ^ w) :
    (padNum w n).data.length = w ∧ AllDigits (padNum w n).data ∧
      charsVal (padNum w n).data = n := by
  obtain ⟨hne, hdig, hval, hlen⟩ := natStrCore_spec (n + 1) n (by omega)
  have hl := hlen w hw h
  unfold padNum natStr
  refine ⟨?_, ?_, ?_⟩
  · simp only [List.length_append, List.length_replicate]
    omega
  · intro c hc
    rcases List.mem_append.1 hc with hc | hc
    · rcases List.eq_of_mem_replicate hc with rfl
      decide
    · exact hdig c hc
  · rw [charsVal_replicate_zero]
    exact hval

theorem digitVal?_eq (c : Char) (hc : c.isDigit = true) :
    digitVal? c = some (c.toNat - 48) := by
  simp [digitVal?, hc]

theorem charsVal_pair (c d : Char) :
    charsVal [c, d] = 10 * (c.toNat - 48) + (d.toNat - 48) := by
  show 10 * (10 * 0 + (c.toNat - 48)) + (d.toNat - 48) = _
  omega

theorem charsVal_triple (c d e : Char) :
    charsVal [c, d, e] = 100 * (c.toNat - 48) + 10 * (d.toNat - 48) + (e.toNat - 48) := by
  show 10 * (10 * (10 * 0 + (c.toNat - 48)) + (d.toNat - 48)) + (e.toNat - 48) = _
  omega

theorem pick2_of_digits (lo hi : Nat) (l r : List Char) (hlen : l.length = 2)
    (hdig : AllDigits l) :
    pick2 lo hi (l ++ r) =
      if lo ≤ charsVal l ∧ charsVal l ≤ hi then some (charsVal l, r) else none := by
  rcases l with _ | ⟨c, l⟩
  · simp at hlen
  rcases l with _ | ⟨d, l⟩
  · simp at hlen
  rcases l with _ | ⟨e, l⟩
  · have hc := hdig c (by simp)
    have hd := hdig d (by simp)
    simp only [List.cons_append, List.nil_append, pick2,
      digitVal?_eq c hc, digitVal?_eq d hd, charsVal_pair]
  · simp only [List.length_cons] at hlen
    omega

theorem pick3_of_digits (lo hi : Nat) (l r : List Char) (hlen : l.length = 3)
    (hdig : AllDigits l) :
    pick3 lo hi (l ++ r) =
      if lo ≤ charsVal l ∧ charsVal l ≤ hi then some (charsVal l, r) else none := by
  rcases l with _ | ⟨c, l⟩
  · simp at hlen
  rcases l with _ | ⟨d, l⟩
  · simp at hlen
  rcases l with _ | ⟨e, l⟩
  · simp at hlen
  rcases l with _ | ⟨f, l⟩
  · have hc := hdig c (by simp)
    have hd := hdig d (by simp)
    have he := hdig e (by simp)
    simp only [List.cons_append, List.nil_append, pick3,
      digitVal?_eq c hc, digitVal?_eq d hd, digitVal?_eq e he, charsVal_triple]
  · simp only [List.length_cons] at hlen
    omega

theorem daysInYear_le (y : Nat) : daysInYear y ≤ 366 := by
  unfold daysInYear
  split <;> omega

theorem splitOnChar_not_mem (sep : Char) (l : List Char) (h : sep ∉ l) :
    splitOnChar sep l = [l] := by
  induction l with
  | nil => rfl
  | cons c cs ih =>
    have hc : ¬(c = sep) := fun hc => h (by simp [hc])
    have hcs : sep ∉ cs := fun hm => h (List.mem_cons_of_mem c hm)
    conv_lhs => rw [splitOnChar]
    rw [if_neg hc, ih hcs]

theorem splitOnChar_append (sep : Char) (l r : List Char) (h : sep ∉ l) :
    splitOnChar sep (l ++ sep :: r) = l :: splitOnChar sep r := by
  induction l with
  | nil =>
    rw [List.nil_append]
    conv_lhs => rw [splitOnChar]
    rw [if_pos rfl]
  | cons c cs ih =>
    have hc : ¬(c = sep) := fun hc => h (by simp [hc])
    have hcs : sep ∉ cs := fun hm => h (List.mem_cons_of_mem c hm)
    rw [List.cons_append]
    conv_lhs => rw [splitOnChar]
    rw [if_neg hc, ih hcs]

theorem findSome?_mem {α β : Type} (f : α → Option β) (l : List α) (b : β)
    (h : List.findSome? f l = some b) : ∃ a ∈ l, f a = some b := by
  induction l with
  | nil => simp [List.findSome?] at h
  | cons x t ih =>
    rw [List.findSome?_cons] at h
    cases hf : f x with
    | some v =>
      rw [hf] at h
      simp only [Option.some.injEq] at h
      exact ⟨x, by simp, by rw [hf, h]⟩
    | none =>
      rw [hf] at h
      obtain ⟨a, ha, hfa⟩ := ih h
      exact ⟨a, by simp [ha], hfa⟩

theorem findSome?_cons_some {α β : Type} (f : α → Option β) (x : α) (t : List α)
    (v : β) (h : f x = some v) : List.findSome? f (x :: t) = some v := by
  rw [List.findSome?_cons, h]

theorem mem_toList_eq {α : Type} (o : Option α) (x : α) (h : x ∈ o.toList) :
    o = some x := by
  cases o <;> simp_all

/-- Value of a canonical 4-digit year block. -/
theorem charsVal_quad (c d e f : Char) :
    charsVal [c, d, e, f] =
      1000 * (c.toNat - 48) + 100 * (d.toNat - 48) + 10 * (e.toNat - 48) + (f.toNat - 48) := by
  show 10 * (10 * (10 * (10 * 0 + (c.toNat - 48)) + (d.toNat - 48)) + (e.toNat - 48)) +
      (f.toNat - 48) = _
  omega

theorem strptimeCore_split (ylist rest : List Char) (hl : ylist.length = 4)
    (hd : AllDigits ylist) :
    strptimeCore (ylist ++ rest) =
      (jCands rest).findSome? fun jr =>
        (hCands jr.2).findSome? fun hr =>
          (mCands hr.2).findSome? fun mr =>
            (sCands mr.2).findSome? fun sr =>
              if sr.2 = [] then some (charsVal ylist, jr.1, hr.1, mr.1, sr.1)
              else none := by
  rcases ylist with _ | ⟨c1, l⟩
  · simp at hl
  rcases l with _ | ⟨c2, l⟩
  · simp at hl
  rcases l with _ | ⟨c3, l⟩
  · simp at hl
  rcases l with _ | ⟨c4, l⟩
  · simp at hl
  rcases l with _ | ⟨c5, l⟩
  · have h1 := hd c1 (by simp)
    have h2 := hd c2 (by simp)
    have h3 := hd c3 (by simp)
    have h4 := hd c4 (by simp)
    simp only [List.cons_append, List.nil_append, strptimeCore,
      digitVal?_eq c1 h1, digitVal?_eq c2 h2, digitVal?_eq c3 h3, digitVal?_eq c4 h4,
      charsVal_quad]
  · simp only [List.length_cons] at hl
    omega

/-- strptime succeeds on the canonical 13-digit YYYYDDDHHMMSS rendering
of in-range components and returns exactly those components. -/
theorem strptime_canonical (y j hh mm ss : Nat)
    (hy1 : 1 ≤ y) (hy2 : y ≤ 9999) (hj1 : 1 ≤ j) (hj2 : j ≤ daysInYear y)
    (hhh : hh ≤ 23) (hmm : mm ≤ 59) (hss : ss ≤ 59) :
    strptimeYjhms ((padNum 4 y).data ++ (padNum 3 j).data ++ (padNum 2 hh).data ++
      (padNum 2 mm).data ++ (padNum 2 ss).data) = some ⟨y, j, hh, mm, ss⟩ := by
  have hj366 : j ≤ 366 := le_trans hj2 (daysInYear_le y)
  obtain ⟨hl4, hd4, hv4⟩ := padNum_spec 4 y (by omega) (by omega)
  obtain ⟨hl3, hd3, hv3⟩ := padNum_spec 3 j (by omega) (by omega)
  obtain ⟨hlh, hdh, hvh⟩ := padNum_spec 2 hh (by omega) (by omega)
  obtain ⟨hlm, hdm, hvm⟩ := padNum_spec 2 mm (by omega) (by omega)
  obtain ⟨hls, hds, hvs⟩ := padNum_spec 2 ss (by omega) (by omega)
  have hpicks : pick2 0 61 ((padNum 2 ss).data ++ []) = some (ss, []) := by
    rw [pick2_of_digits _ _ _ _ hls hds, hvs, if_pos ⟨by omega, by omega⟩]
  rw [List.append_nil] at hpicks
  have hsc : List.findSome? (fun sr : Nat × List Char =>
      if sr.2 = [] then some (y, j, hh, mm, sr.1) else none)
      (sCands (padNum 2 ss).data) = some (y, j, hh, mm, ss) := by
    rw [sCands, hpicks]
    exact findSome?_cons_some _ _ _ _ (by rw [if_pos rfl])
  have hpickm : pick2 0 59 ((padNum 2 mm).data ++ (padNum 2 ss).data) =
      some (mm, (padNum 2 ss).data) := by
    rw [pick2_of_digits _ _ _ _ hlm hdm, hvm, if_pos ⟨by omega, hmm⟩]
  have hmc : List.findSome? (fun mr : Nat × List Char =>
      List.findSome? (fun sr : Nat × List Char =>
        if sr.2 = [] then some (y, j, hh, mr.1, sr.1) else none) (sCands mr.2))
      (mCands ((padNum 2 mm).data ++ (padNum 2 ss).data)) = some (y, j, hh, mm, ss) := by
    rw [mCands, hpickm]
    exact findSome?_cons_some _ _ _ _ hsc
  have hpickh : pick2 0 23 ((padNum 2 hh).data ++ ((padNum 2 mm).data ++
      (padNum 2 ss).data)) =
      some (hh, (padNum 2 mm).data ++ (padNum 2 ss).data) := by
    rw [pick2_of_digits _ _ _ _ hlh hdh, hvh, if_pos ⟨by omega, hhh⟩]
  have hhc : List.findSome? (fun hr : Nat × List Char =>
      List.findSome? (fun mr : Nat × List Char =>
        List.findSome? (fun sr : Nat × List Char =>
          if sr.2 = [] then some (y, j, hr.1, mr.1, sr.1) else none) (sCands mr.2))
        (mCands hr.2))
      (hCands ((padNum 2 hh).data ++ ((padNum 2 mm).data ++ (padNum 2 ss).data))) =
      some (y, j, hh, mm, ss) := by
    rw [hCands, hpickh]
    exact findSome?_cons_some _ _ _ _ hmc
  have hpick3 : pick3 1 366 ((padNum 3 j).data ++ ((padNum 2 hh).data ++
      ((padNum 2 mm).data ++ (padNum 2 ss).data))) =
      some (j, (padNum 2 hh).data ++ ((padNum 2 mm).data ++ (padNum 2 ss).data)) := by
    rw [pick3_of_digits _ _ _ _ hl3 hd3, hv3, if_pos ⟨hj1, hj366⟩]
  have hcore : strptimeCore ((padNum 4 y).data ++ (padNum 3 j).data ++
      (padNum 2 hh).data ++ (padNum 2 mm).data ++ (padNum 2 ss).data) =
      some (y, j, hh, mm, ss) := by
    simp only [List.append_assoc]
    rw [strptimeCore_split _ _ hl4 hd4, hv4, jCands, hpick3]
    refine (findSome?_cons_some _ _ _ _ ?_).trans rfl
    dsimp only
    exact hhc
  simp only [strptimeYjhms, hcore]
  rw [if_neg (by omega : ¬y = 0), if_neg (by omega : ¬60 ≤ ss), if_pos hj2]

theorem pick1_length (lo hi : Nat) (l : List Char) (p : Nat × List Char)
    (h : pick1 lo hi l = some p) : l.length = p.2.length + 1 := by
  rcases l with _ | ⟨c, t⟩
  · simp [pick1] at h
  · simp only [pick1] at h
    split at h
    · cases h
    · split at h
      · simp only [Option.some.injEq] at h
        subst h
        simp
      · cases h

theorem pick2_length (lo hi : Nat) (l : List Char) (p : Nat × List Char)
    (h : pick2 lo hi l = some p) : l.length = p.2.length + 2 := by
  rcases l with _ | ⟨c, _ | ⟨d, t⟩⟩
  · simp [pick2] at h
  · simp [pick2] at h
  · simp only [pick2] at h
    split at h
    · split at h
      · simp only [Option.some.injEq] at h
        subst h
        simp
      · cases h
    · cases h

theorem pick3_length (lo hi : Nat) (l : List Char) (p : Nat × List Char)
    (h : pick3 lo hi l = some p) : l.length = p.2.length + 3 := by
  rcases l with _ | ⟨c, _ | ⟨d, _ | ⟨e, t⟩⟩⟩
  · simp [pick3] at h
  · simp [pick3] at h
  · simp [pick3] at h
  · simp only [pick3] at h
    split at h
    · split at h
      · simp only [Option.some.injEq] at h
        subst h
        simp
      · cases h
    · cases h

theorem jCands_bound (l : List Char) (p : Nat × List Char)
    (h : p ∈ jCands l) : l.length ≤ p.2.length + 3 := by
  rcases List.mem_append.1 h with h1 | h1
  · rcases List.mem_append.1 h1 with h2 | h2
    · have := pick3_length 1 366 l p (mem_toList_eq _ _ h2)
      omega
    · have := pick2_length 1 99 l p (mem_toList_eq _ _ h2)
      omega
  · have := pick1_length 1 9 l p (mem_toList_eq _ _ h1)
    omega

theorem hCands_bound (l : List Char) (p : Nat × List Char)
    (h : p ∈ hCands l) : l.length ≤ p.2.length + 2 := by
  rcases List.mem_append.1 h with h1 | h1
  · have := pick2_length 0 23 l p (mem_toList_eq _ _ h1)
    omega
  · have := pick1_length 0 9 l p (mem_toList_eq _ _ h1)
    omega

theorem mCands_bound (l : List Char) (p : Nat × List Char)
    (h : p ∈ mCands l) : l.length ≤ p.2.length + 2 := by
  rcases List.mem_append.1 h with h1 | h1
  · have := pick2_length 0 59 l p (mem_toList_eq _ _ h1)
    omega
  · have := pick1_length 0 9 l p (mem_toList_eq _ _ h1)
    omega

theorem sCands_bound (l : List Char) (p : Nat × List Char)
    (h : p ∈ sCands l) : l.length ≤ p.2.length + 2 := by
  rcases List.mem_append.1 h with h1 | h1
  · have := pick2_length 0 61 l p (mem_toList_eq _ _ h1)
    omega
  · have := pick1_length 0 9 l p (mem_toList_eq _ _ h1)
    omega

/-- No string of more than 13 characters matches %Y%j%H%M%S: the five
fields consume at most 4+3+2+2+2 characters and the whole string must
be consumed. -/
theorem strptimeCore_length (l : List Char) (q : Nat × Nat × Nat × Nat × Nat)
    (h : strptimeCore l = some q) : l.length ≤ 13 := by
  rcases l with _ | ⟨c1, _ | ⟨c2, _ | ⟨c3, _ | ⟨c4, rest⟩⟩⟩⟩
  · simp [strptimeCore] at h
  · simp [strptimeCore] at h
  · simp [strptimeCore] at h
  · simp [strptimeCore] at h
  · simp only [strptimeCore] at h
    split at h
    · obtain ⟨jr, hjmem, hj⟩ := findSome?_mem _ _ _ h
      obtain ⟨hr, hhmem, hh2⟩ := findSome?_mem _ _ _ hj
      obtain ⟨mr, hmmem, hm2⟩ := findSome?_mem _ _ _ hh2
      obtain ⟨sr, hsmem, hs2⟩ := findSome?_mem _ _ _ hm2
      have hsnil : sr.2 = [] := by
        by_contra hcon
        rw [if_neg hcon] at hs2
        cases hs2
      have b1 := jCands_bound rest jr hjmem
      have b2 := hCands_bound jr.2 hr hhmem
      have b3 := mCands_bound hr.2 mr hmmem
      have b4 := sCands_bound mr.2 sr hsmem
      rw [hsnil] at b4
      simp only [List.length_nil, List.length_cons] at b4 ⊢
      omega
    · cases h

theorem strptimeYjhms_long (l : List Char) (h14 : 14 ≤ l.length) :
    strptimeYjhms l = none := by
  cases hc : strptimeCore l with
  | none => simp [strptimeYjhms, hc]
  | some q =>
    have := strptimeCore_length l q hc
    omega

theorem allDigits_not_mem (l : List Char) (hd : AllDigits l) (c : Char)
    (hc : c.isDigit = false) : c ∉ l := fun hm => by
  have := hd c hm
  rw [hc] at this
  cases this

/-- C7 (amended: the timestamp field is 13 digits, not 14): the derived
timestamp comes from the underscore-separated field at index 3 by
stripping one leading and one trailing character; the 13-character
remainder parses as a YYYYDDDHHMMSS timestamp recovering exactly the
encoded components; any remainder of 14 or more characters — in
particular the 14-digit remainder the original claim prescribes — is a
parse failure; and a parse failure is a hard ValueError for that
object, not a skip. -/
theorem timestamp_convention (p1 p2 p3 tail : List Char) (mc1 mc2 : Char)
    (y j hh mm ss : Nat)
    (hp1 : '_' ∉ p1) (hp2 : '_' ∉ p2) (hp3 : '_' ∉ p3)
    (hmc1 : mc1 ≠ '_') (hmc2 : mc2 ≠ '_')
    (hy1 : 1 ≤ y) (hy2 : y ≤ 9999) (hj1 : 1 ≤ j) (hj2 : j ≤ daysInYear y)
    (hhh : hh ≤ 23) (hmm : mm ≤ 59) (hss : ss ≤ 59) :
    ((padNum 4 y).data ++ (padNum 3 j).data ++ (padNum 2 hh).data ++
        (padNum 2 mm).data ++ (padNum 2 ss).data).length = 13 ∧
    parseFileTime ⟨p1 ++ '_' :: (p2 ++ '_' :: (p3 ++ '_' ::
        ((mc1 :: ((padNum 4 y).data ++ (padNum 3 j).data ++ (padNum 2 hh).data ++
          (padNum 2 mm).data ++ (padNum 2 ss).data ++ [mc2])) ++ '_' :: tail)))⟩ =
      .ok ⟨y, j, hh, mm, ss⟩ ∧
    (∀ l : List Char, 14 ≤ l.length → strptimeYjhms l = none) ∧
    (∀ fn : String, ∀ f3 : List Char,
      (splitOnChar '_' fn.data).get? 3 = some f3 →
      strptimeYjhms (f3.drop 1).dropLast = none →
      parseFileTime fn = .error .valueError) := by
  obtain ⟨hl4, hd4, hv4⟩ := padNum_spec 4 y (by omega) (by omega)
  obtain ⟨hl3, hd3, hv3⟩ := padNum_spec 3 j (by omega)
    (by have := daysInYear_le y; omega)
  obtain ⟨hlh, hdh, hvh⟩ := padNum_spec 2 hh (by omega) (by omega)
  obtain ⟨hlm, hdm, hvm⟩ := padNum_spec 2 mm (by omega) (by omega)
  obtain ⟨hls, hds, hvs⟩ := padNum_spec 2 ss (by omega) (by omega)
  have hcanonlen : ((padNum 4 y).data ++ (padNum 3 j).data ++ (padNum 2 hh).data ++
      (padNum 2 mm).data ++ (padNum 2 ss).data).length = 13 := by
    simp only [List.length_append]
    omega
  refine ⟨hcanonlen, ?_, fun l hl => strptimeYjhms_long l hl, fun fn f3 hget hnone => ?_⟩
  · have hfield : '_' ∉ mc1 :: ((padNum 4 y).data ++ (padNum 3 j).data ++
        (padNum 2 hh).data ++ (padNum 2 mm).data ++ (padNum 2 ss).data ++ [mc2]) := by
      intro hm
      rcases List.mem_cons.1 hm with he | hm
      · exact hmc1 he.symm
      rcases List.mem_append.1 hm with hm | hm
      · rcases List.mem_append.1 hm with hm | hm
        · rcases List.mem_append.1 hm with hm | hm
          · rcases List.mem_append.1 hm with hm | hm
            · rcases List.mem_append.1 hm with hm | hm
              · exact allDigits_not_mem _ hd4 '_' (by decide) hm
              · exact allDigits_not_mem _ hd3 '_' (by decide) hm
            · exact allDigits_not_mem _ hdh '_' (by decide) hm
          · exact allDigits_not_mem _ hdm '_' (by decide) hm
        · exact allDigits_not_mem _ hds '_' (by decide) hm
      · rcases List.mem_singleton.1 hm with rfl
        exact hmc2 rfl
    have hsplit : splitOnChar '_' (p1 ++ '_' :: (p2 ++ '_' :: (p3 ++ '_' ::
        ((mc1 :: ((padNum 4 y).data ++ (padNum 3 j).data ++ (padNum 2 hh).data ++
          (padNum 2 mm).data ++ (padNum 2 ss).data ++ [mc2])) ++ '_' :: tail)))) =
        p1 :: p2 :: p3 :: (mc1 :: ((padNum 4 y).data ++ (padNum 3 j).data ++
          (padNum 2 hh).data ++ (padNum 2 mm).data ++ (padNum 2 ss).data ++ [mc2])) ::
          splitOnChar '_' tail := by
      rw [splitOnChar_append '_' p1 _ hp1, splitOnChar_append '_' p2 _ hp2,
        splitOnChar_append '_' p3 _ hp3, splitOnChar_append '_' _ _ hfield]
    have hstrip : (((mc1 :: ((padNum 4 y).data ++ (padNum 3 j).data ++
        (padNum 2 hh).data ++ (padNum 2 mm).data ++ (padNum 2 ss).data ++
        [mc2])).drop 1).dropLast) =
        (padNum 4 y).data ++ (padNum 3 j).data ++ (padNum 2 hh).data ++
          (padNum 2 mm).data ++ (padNum 2 ss).data := by
      rw [List.drop_one, List.tail_cons, List.dropLast_concat]
    unfold parseFileTime
    rw [hsplit]
    simp only [List.get?_cons_succ, List.get?_cons_zero, hstrip,
      strptime_canonical y j hh mm ss hy1 hy2 hj1 hj2 hhh hmm hss]
  · simp only [parseFileTime, hget, hnone]

/-- C7 counterexample to the claim as stated: take a filename whose
index-3 field is a marker character, a 14-digit string and a trailing
marker character — the exact shape the claim prescribes.  The code
raises ValueError on it instead of deriving a timestamp, because after
the two strips a 14-digit remainder never matches %Y%j%H%M%S; the
canonical GOES field (marker + 13-digit timestamp + tenth-of-second
digit) parses instead. -/
theorem timestamp_14_digit_counterexample :
    (pySlice1m1 "s20171671145342X").data.length = 14 ∧
    parseFileTime "OR_ABI-L1b-RadF-M3C01_G16_s20171671145342X_e.nc" =
      .error .valueError ∧
    (pySlice1m1 "s20171671145342").data.length = 13 ∧
    parseFileTime "OR_ABI-L1b-RadF-M3C01_G16_s20171671145342_e.nc" =
      .ok ⟨2017, 167, 11, 45, 34⟩ := by
  refine ⟨by decide, rfl, by decide, rfl⟩

/-! ## Path layout: normal form, round trip and injectivity (C8) -/

/-- A well-formed path segment: nonempty and slash-free (products and
satellite ids are such identifiers; the generated date segments are
digit strings; filenames come from key components after the last "/"). -/
def WfSeg (s : String) : Prop := s.data ≠ [] ∧ '/' ∉ s.data

/-- What os.path.join contributes for the fixed mirror root: the root
itself plus a separator, unless the root is empty or ends in one. -/
def mBaseData (m : String) : List Char :=
  if m.data = [] ∨ m.data.getLast? = some '/' then m.data else m.data ++ ['/']

theorem getLast?_ne_slash (l : List Char) (h : '/' ∉ l) : l.getLast? ≠ some '/' := by
  intro hc
  exact h (List.mem_of_mem_getLast? hc)

theorem pathJoin2_head (m b : String) (hbh : b.data.head? ≠ some '/') :
    (pathJoin2 m b).data = mBaseData m ++ b.data := by
  unfold pathJoin2 mBaseData
  rw [if_neg hbh]
  by_cases hcase : m.data = [] ∨ m.data.getLast? = some '/'
  · rw [if_pos hcase, if_pos hcase, String.data_append]
  · rw [if_neg hcase, if_neg hcase, String.data_append, String.data_append]

theorem pathJoin2_data (a b : String) (hb1 : b.data ≠ []) (hb2 : '/' ∉ b.data)
    (ha1 : a.data ≠ []) (ha2 : a.data.getLast? ≠ some '/') :
    (pathJoin2 a b).data = a.data ++ '/' :: b.data := by
  have hbh : b.data.head? ≠ some '/' := by
    intro hc
    exact hb2 (List.mem_of_mem_head? hc)
  unfold pathJoin2
  rw [if_neg hbh, if_neg (by push_neg; exact ⟨ha1, ha2⟩), String.data_append,
    String.data_append]
  simp

/-- The goes directory segment of a bucket. -/
theorem goesSeg_data (s : String) : ("noaa-goes" ++ s).data = "noaa-goes".data ++ s.data :=
  String.data_append _ _

theorem goesSeg_ne_nil (s : String) : ("noaa-goes" ++ s).data ≠ [] := by
  rw [goesSeg_data]
  simp [show "noaa-goes".data = 'n' :: "oaa-goes".data from rfl]

theorem goesSeg_no_slash (s : String) (hs : '/' ∉ s.data) :
    '/' ∉ ("noaa-goes" ++ s).data := by
  rw [goesSeg_data]
  intro hm
  rcases List.mem_append.1 hm with hm | hm
  · revert hm
    decide
  · exact hs hm

theorem natStr_wf (n : Nat) : (natStr n).data ≠ [] ∧ '/' ∉ (natStr n).data := by
  obtain ⟨hne, hdig, -, -⟩ := natStrCore_spec (n + 1) n (by omega)
  exact ⟨hne, allDigits_not_mem _ hdig '/' (by decide)⟩

theorem padNum_wf (w n : Nat) : (padNum w n).data ≠ [] ∧ '/' ∉ (padNum w n).data := by
  obtain ⟨hne, hdig, -, -⟩ := natStrCore_spec (n + 1) n (by omega)
  constructor
  · unfold padNum natStr
    intro hcon
    rw [List.append_eq_nil] at hcon
    exact hne hcon.2
  · unfold padNum natStr
    intro hm
    rcases List.mem_append.1 hm with hm | hm
    · rcases List.eq_of_mem_replicate hm with h
      cases h
    · exact allDigits_not_mem _ hdig '/' (by decide) hm

/-- The local file path in normal form: the mirror-root base followed by
the six slash-separated segments. -/
theorem localFile_data (m : String) (b : Bucket) (fn : String)
    (hp : WfSeg b.product) (hs : '/' ∉ b.sat.data) (hfn : WfSeg fn) :
    (pathJoin2 (localDirOf m b) fn).data =
      mBaseData m ++ (("noaa-goes" ++ b.sat).data ++ '/' :: (b.product.data ++ '/' ::
        ((natStr b.h.year).data ++ '/' :: ((padNum 3 b.h.doy).data ++ '/' ::
          ((padNum 2 b.h.hour).data ++ '/' :: fn.data))))) := by
  obtain ⟨hyne, hysl⟩ := natStr_wf b.h.year
  obtain ⟨hjne, hjsl⟩ := padNum_wf 3 b.h.doy
  obtain ⟨hhne, hhsl⟩ := padNum_wf 2 b.h.hour
  have hgne := goesSeg_ne_nil b.sat
  have hgsl := goesSeg_no_slash b.sat hs
  have hghead : ("noaa-goes" ++ b.sat).data.head? ≠ some '/' := by
    rw [goesSeg_data, show "noaa-goes".data = 'n' :: "oaa-goes".data from rfl]
    simp
  have hd : localDirOf m b =
      pathJoin2 (pathJoin2 (pathJoin2 (pathJoin2 (pathJoin2 m ("noaa-goes" ++ b.sat))
        b.product) (natStr b.h.year)) (padNum 3 b.h.doy)) (padNum 2 b.h.hour) := rfl
  have e1 : (pathJoin2 m ("noaa-goes" ++ b.sat)).data =
      mBaseData m ++ ("noaa-goes" ++ b.sat).data := pathJoin2_head _ _ hghead
  have last1 : (pathJoin2 m ("noaa-goes" ++ b.sat)).data.getLast? ≠ some '/' := by
    rw [e1, List.getLast?_append_of_ne_nil _ hgne]
    exact getLast?_ne_slash _ hgsl
  have ne1 : (pathJoin2 m ("noaa-goes" ++ b.sat)).data ≠ [] := by
    rw [e1]
    intro hcon
    rw [List.append_eq_nil] at hcon
    exact hgne hcon.2
  have e2 := pathJoin2_data (pathJoin2 m ("noaa-goes" ++ b.sat)) b.product hp.1 hp.2 ne1 last1
  have last2 : (pathJoin2 (pathJoin2 m ("noaa-goes" ++ b.sat)) b.product).data.getLast? ≠
      some '/' := by
    rw [e2]
    rw [show (pathJoin2 m ("noaa-goes" ++ b.sat)).data ++ '/' :: b.product.data =
      (pathJoin2 m ("noaa-goes" ++ b.sat)).data ++ ('/' :: b.product.data) from rfl,
      List.getLast?_append_of_ne_nil _ (by simp)]
    have : ('/' :: b.product.data).getLast? = b.product.data.getLast? := by
      rcases hcp : b.product.data with _ | ⟨c, t⟩
      · exact absurd hcp hp.1
      · simp
    rw [this]
    exact getLast?_ne_slash _ hp.2
  have ne2 : (pathJoin2 (pathJoin2 m ("noaa-goes" ++ b.sat)) b.product).data ≠ [] := by
    rw [e2]
    simp
  have e3 := pathJoin2_data _ (natStr b.h.year) hyne hysl ne2 last2
  have last3 : (pathJoin2 (pathJoin2 (pathJoin2 m ("noaa-goes" ++ b.sat)) b.product)
      (natStr b.h.year)).data.getLast? ≠ some '/' := by
    rw [e3, show ∀ x : List Char, x ++ '/' :: (natStr b.h.year).data =
      x ++ ('/' :: (natStr b.h.year).data) from fun x => rfl,
      List.getLast?_append_of_ne_nil _ (by simp)]
    have : ('/' :: (natStr b.h.year).data).getLast? = (natStr b.h.year).data.getLast? := by
      rcases hcp : (natStr b.h.year).data with _ | ⟨c, t⟩
      · exact absurd hcp hyne
      · simp
    rw [this]
    exact getLast?_ne_slash _ hysl
  have ne3 : (pathJoin2 (pathJoin2 (pathJoin2 m ("noaa-goes" ++ b.sat)) b.product)
      (natStr b.h.year)).data ≠ [] := by
    rw [e3]
    simp
  have e4 := pathJoin2_data _ (padNum 3 b.h.doy) hjne hjsl ne3 last3
  have last4 : (pathJoin2 (pathJoin2 (pathJoin2 (pathJoin2 m ("noaa-goes" ++ b.sat))
      b.product) (natStr b.h.year)) (padNum 3 b.h.doy)).data.getLast? ≠ some '/' := by
    rw [e4, show ∀ x : List Char, x ++ '/' :: (padNum 3 b.h.doy).data =
      x ++ ('/' :: (padNum 3 b.h.doy).data) from fun x => rfl,
      List.getLast?_append_of_ne_nil _ (by simp)]
    have : ('/' :: (padNum 3 b.h.doy).data).getLast? = (padNum 3 b.h.doy).data.getLast? := by
      rcases hcp : (padNum 3 b.h.doy).data with _ | ⟨c, t⟩
      · exact absurd hcp hjne
      · simp
    rw [this]
    exact getLast?_ne_slash _ hjsl
  have ne4 : (pathJoin2 (pathJoin2 (pathJoin2 (pathJoin2 m ("noaa-goes" ++ b.sat))
      b.product) (natStr b.h.year)) (padNum 3 b.h.doy)).data ≠ [] := by
    rw [e4]
    simp
  have e5 := pathJoin2_data _ (padNum 2 b.h.hour) hhne hhsl ne4 last4
  have last5 : (localDirOf m b).data.getLast? ≠ some '/' := by
    rw [hd, e5, show ∀ x : List Char, x ++ '/' :: (padNum 2 b.h.hour).data =
      x ++ ('/' :: (padNum 2 b.h.hour).data) from fun x => rfl,
      List.getLast?_append_of_ne_nil _ (by simp)]
    have : ('/' :: (padNum 2 b.h.hour).data).getLast? =
        (padNum 2 b.h.hour).data.getLast? := by
      rcases hcp : (padNum 2 b.h.hour).data with _ | ⟨c, t⟩
      · exact absurd hcp hhne
      · simp
    rw [this]
    exact getLast?_ne_slash _ hhsl
  have ne5 : (localDirOf m b).data ≠ [] := by
    rw [hd, e5]
    simp
  have e6 := pathJoin2_data (localDirOf m b) fn hfn.1 hfn.2 ne5 last5
  rw [e6, hd, e5, e4, e3, e2, e1]
  simp [List.append_assoc]

/-- Modelled from the spec: the local mirror layout rule
mirror_root/noaa-goes(sat)/(product)/(year)/(doy)/(hour)/(filename),
read backwards — decompose a local path into the six segments under the
given mirror root. -/
def layoutSplit (mirror_root path : String) :
    Option (String × String × String × String × String × String) :=
  if path.data.take (mBaseData mirror_root).length = mBaseData mirror_root then
    match splitOnChar '/' (path.data.drop (mBaseData mirror_root).length) with
    | [g, p, yy, jj, hh, fn] =>
      if g.take 9 = "noaa-goes".data then
        some (⟨g.drop 9⟩, ⟨p⟩, ⟨yy⟩, ⟨jj⟩, ⟨hh⟩, ⟨fn⟩)
      else none
    | _ => none
  else none

/-- C8: the computed local path, fed back through the layout rule,
reconstructs exactly the (satellite, product, year, day-of-year, hour,
filename) tuple that also builds the remote key; consequently the local
path is injective in those components, and in particular two objects
from different buckets never share a local path. -/
theorem layout_round_trip (m : String) (b b2 : Bucket) (fn fn2 : String)
    (hp : WfSeg b.product) (hs : '/' ∉ b.sat.data) (hfn : WfSeg fn)
    (hp2 : WfSeg b2.product) (hs2 : '/' ∉ b2.sat.data) (hfn2 : WfSeg fn2) :
    layoutSplit m (pathJoin2 (localDirOf m b) fn) =
      some (b.sat, b.product, natStr b.h.year, padNum 3 b.h.doy,
        padNum 2 b.h.hour, fn) ∧
    (pathJoin2 (localDirOf m b) fn = pathJoin2 (localDirOf m b2) fn2 →
      b.sat = b2.sat ∧ b.product = b2.product ∧
        natStr b.h.year = natStr b2.h.year ∧
        padNum 3 b.h.doy = padNum 3 b2.h.doy ∧
        padNum 2 b.h.hour = padNum 2 b2.h.hour ∧ fn = fn2 ∧
        awsDirOf b ++ "/" ++ fn = awsDirOf b2 ++ "/" ++ fn2) := by
  have hround : ∀ b3 : Bucket, ∀ fn3 : String, WfSeg b3.product → '/' ∉ b3.sat.data →
      WfSeg fn3 →
      layoutSplit m (pathJoin2 (localDirOf m b3) fn3) =
        some (b3.sat, b3.product, natStr b3.h.year, padNum 3 b3.h.doy,
          padNum 2 b3.h.hour, fn3) := by
    intro b3 fn3 hp3 hs3 hfn3
    obtain ⟨hyne, hysl⟩ := natStr_wf b3.h.year
    obtain ⟨hjne, hjsl⟩ := padNum_wf 3 b3.h.doy
    obtain ⟨hhne, hhsl⟩ := padNum_wf 2 b3.h.hour
    have hgsl := goesSeg_no_slash b3.sat hs3
    have hdata := localFile_data m b3 fn3 hp3 hs3 hfn3
    have hsplit : splitOnChar '/' (("noaa-goes" ++ b3.sat).data ++ '/' ::
        (b3.product.data ++ '/' :: ((natStr b3.h.year).data ++ '/' ::
          ((padNum 3 b3.h.doy).data ++ '/' ::
            ((padNum 2 b3.h.hour).data ++ '/' :: fn3.data))))) =
        [("noaa-goes" ++ b3.sat).data, b3.product.data, (natStr b3.h.year).data,
          (padNum 3 b3.h.doy).data, (padNum 2 b3.h.hour).data, fn3.data] := by
      rw [splitOnChar_append '/' _ _ hgsl, splitOnChar_append '/' _ _ hp3.2,
        splitOnChar_append '/' _ _ hysl, splitOnChar_append '/' _ _ hjsl,
        splitOnChar_append '/' _ _ hhsl, splitOnChar_not_mem '/' _ hfn3.2]
    unfold layoutSplit
    rw [hdata, List.take_left, if_pos rfl, List.drop_left, hsplit]
    have hgtake : ("noaa-goes" ++ b3.sat).data.take 9 = "noaa-goes".data := by
      rw [goesSeg_data]
      exact List.take_left' (by decide)
    have hgdrop : ("noaa-goes" ++ b3.sat).data.drop 9 = b3.sat.data := by
      rw [goesSeg_data]
      exact List.drop_left' (by decide)
    dsimp only
    rw [hgtake, if_pos rfl, hgdrop]
  refine ⟨hround b fn hp hs hfn, fun heq => ?_⟩
  have h1 := hround b fn hp hs hfn
  have h2 := hround b2 fn2 hp2 hs2 hfn2
  rw [heq, h2] at h1
  simp only [Option.some.injEq, Prod.mk.injEq] at h1
  obtain ⟨hsat, hprod, hy, hj, hh, hfneq⟩ := h1
  refine ⟨hsat.symm, hprod.symm, hy.symm, hj.symm, hh.symm, hfneq.symm, ?_⟩
  unfold awsDirOf joinSlash
  rw [hsat, hprod, hy, hj, hh, hfneq]

/-! ## Idempotence infrastructure (C6) -/

theorem parseFileTime_error_kind (fn : String) (e : ErrKind)
    (h : parseFileTime fn = .error e) :
    e = ErrKind.valueError ∨ e = ErrKind.indexError := by
  unfold parseFileTime at h
  split at h
  · cases h
    exact Or.inr rfl
  · split at h
    · cases h
      exact Or.inl rfl
    · cases h

/-- The exception raised by should_download does not depend on the
local filesystem state (it comes from the timestamp parse, before any
local lookup). -/
theorem should_download_error_congr (a : Args) (sz : String → Nat) (loc loc' : Loc)
    (aws_file local_file : String) (e : ErrKind)
    (h : should_download a sz loc aws_file local_file = .error e) :
    should_download a sz loc' aws_file local_file = .error e := by
  unfold should_download at h ⊢
  dsimp only at h ⊢
  cases hf : (match a.fn_filter with
      | some flt => !(flt (lastComponent aws_file)) | none => false) with
  | true =>
    rw [hf] at h
    simp at h
  | false =>
    rw [hf] at h
    simp only [Bool.false_eq_true, if_false] at h ⊢
    cases hp : parseFileTime (lastComponent aws_file) with
    | error e2 =>
      rw [hp] at h
      exact h
    | ok ft =>
      exfalso
      rw [hp] at h
      dsimp only at h
      split at h
      · cases h
      · split at h
        · split at h
          · cases h
          · cases h
        · cases h

theorem should_download_error_kind (a : Args) (sz : String → Nat) (loc : Loc)
    (aws_file local_file : String) (e : ErrKind)
    (h : should_download a sz loc aws_file local_file = .error e) :
    e = ErrKind.valueError ∨ e = ErrKind.indexError := by
  unfold should_download at h
  dsimp only at h
  cases hf : (match a.fn_filter with
      | some flt => !(flt (lastComponent aws_file)) | none => false) with
  | true =>
    rw [hf] at h
    simp at h
  | false =>
    rw [hf] at h
    simp only [Bool.false_eq_true, if_false] at h
    cases hp : parseFileTime (lastComponent aws_file) with
    | error e2 =>
      rw [hp] at h
      dsimp only at h
      cases h
      exact parseFileTime_error_kind _ _ hp
    | ok ft =>
      exfalso
      rw [hp] at h
      dsimp only at h
      split at h
      · cases h
      · split at h
        · split at h
          · cases h
          · cases h
        · cases h

/-- A rejected object stays rejected when the local file at its
mirrored path is unchanged or now holds exactly the remote size. -/
theorem synced_stable (a : Args) (sz : String → Nat) (loc loc' : Loc)
    (aws_file local_file : String)
    (hsync : should_download a sz loc aws_file local_file = .ok false)
    (hloc : loc' local_file = loc local_file ∨
      loc' local_file = some (sz aws_file)) :
    should_download a sz loc' aws_file local_file = .ok false := by
  unfold should_download at hsync ⊢
  dsimp only at hsync ⊢
  cases hf : (match a.fn_filter with
      | some flt => !(flt (lastComponent aws_file)) | none => false) with
  | true =>
    simp
  | false =>
    rw [hf] at hsync
    simp only [Bool.false_eq_true, if_false] at hsync ⊢
    cases hp : parseFileTime (lastComponent aws_file) with
    | error e2 =>
      rw [hp] at hsync
      dsimp only at hsync
      cases hsync
    | ok ft =>
      rw [hp] at hsync
      dsimp only at hsync
      dsimp only
      by_cases hw : absSec a.start_time ≤ absSec ft ∧ absSec ft < absSec a.end_time
      · rw [if_neg (by simpa using hw)] at hsync ⊢
        by_cases hov : a.overwrite = false
        · rw [if_pos hov] at hsync ⊢
          cases hl : loc local_file with
          | none =>
            rw [hl] at hsync
            simp at hsync
          | some lsz =>
            rw [hl] at hsync
            simp only [Except.ok.injEq, decide_eq_false_iff_not, not_not] at hsync
            rcases hloc with h2 | h2
            · rw [h2, hl]
              simp [hsync]
            · rw [h2]
              simp
        · rw [if_neg hov] at hsync
          simp at hsync
      · rw [if_pos (by simpa using hw)]

/-- An object that was downloaded — so that its local file now has the
remote size — is rejected on the next decision when overwrite is off. -/
theorem downloaded_synced (a : Args) (sz : String → Nat) (loc loc' : Loc)
    (aws_file local_file : String)
    (hov : a.overwrite = false)
    (hdec : should_download a sz loc aws_file local_file = .ok true)
    (hloc : loc' local_file = some (sz aws_file)) :
    should_download a sz loc' aws_file local_file = .ok false := by
  unfold should_download at hdec ⊢
  dsimp only at hdec ⊢
  cases hf : (match a.fn_filter with
      | some flt => !(flt (lastComponent aws_file)) | none => false) with
  | true =>
    rw [hf] at hdec
    simp at hdec
  | false =>
    rw [hf] at hdec
    simp only [Bool.false_eq_true, if_false] at hdec ⊢
    cases hp : parseFileTime (lastComponent aws_file) with
    | error e2 =>
      rw [hp] at hdec
      dsimp only at hdec
      cases hdec
    | ok ft =>
      rw [hp] at hdec
      dsimp only at hdec
      dsimp only
      by_cases hw : absSec a.start_time ≤ absSec ft ∧ absSec ft < absSec a.end_time
      · rw [if_neg (by simpa using hw)] at hdec ⊢
        rw [if_pos hov]
        rw [hloc]
        simp
      · rw [if_pos (by simpa using hw)] at hdec
        simp at hdec

/-- Distinct tasks writing to the same local path fetch objects of the
same reported size (within one bucket, the path determines the key). -/
def Coherent (env : Env) (ts : List Task) : Prop :=
  ∀ t ∈ ts, ∀ t2 ∈ ts, t.2 = t2.2 → env.size t.1 = env.size t2.1

theorem runTasks_no_error (env : Env) (hget : ∀ p, env.get p = Except.ok ()) :
    ∀ (ts : List Task) (loc : Loc), (runTasks env false loc ts).2.2 = none := by
  intro ts
  induction ts with
  | nil => intro loc; rfl
  | cons t ts ih =>
    intro loc
    rcases hrec : runTasks env false
        (fun p => if p = t.2 then some (env.size t.1) else loc p) ts with ⟨loc2, evs, er⟩
    have hstep : runTasks env false loc (t :: ts) =
        (loc2, Event.announce (lastComponent t.1) :: Event.transfer t.1 t.2 :: evs, er) := by
      conv_lhs => rw [runTasks]
      simp only [Bool.false_eq_true, if_false, hget t.1, hrec]
    rw [hstep]
    have h2 := ih (fun p => if p = t.2 then some (env.size t.1) else loc p)
    rw [hrec] at h2
    exact h2

theorem runTasks_benign (env : Env) (hget : ∀ p, env.get p = Except.ok ()) :
    ∀ ts : List Task, ∀ loc : Loc, Coherent env ts →
      (runTasks env false loc ts).2.2 = none ∧
      (∀ p, (runTasks env false loc ts).1 p = loc p ∨
        ∃ t ∈ ts, p = t.2 ∧ (runTasks env false loc ts).1 p = some (env.size t.1)) ∧
      (∀ t ∈ ts, (runTasks env false loc ts).1 t.2 = some (env.size t.1)) := by
  intro ts
  induction ts with
  | nil =>
    intro loc _
    exact ⟨rfl, fun p => Or.inl rfl, by simp⟩
  | cons t ts ih =>
    intro loc hco
    obtain ⟨e1, e2, e3⟩ := ih (fun p => if p = t.2 then some (env.size t.1) else loc p)
      (fun x hx x2 hx2 hp => hco x (by simp [hx]) x2 (by simp [hx2]) hp)
    rcases hrec : runTasks env false
        (fun p => if p = t.2 then some (env.size t.1) else loc p) ts with ⟨loc2, evs, er⟩
    rw [hrec] at e1 e2 e3
    dsimp only at e1 e2 e3
    have hstep : runTasks env false loc (t :: ts) =
        (loc2, Event.announce (lastComponent t.1) :: Event.transfer t.1 t.2 :: evs, er) := by
      conv_lhs => rw [runTasks]
      simp only [Bool.false_eq_true, if_false, hget t.1, hrec]
    rw [hstep]
    dsimp only
    refine ⟨e1, ?_, ?_⟩
    · intro p
      rcases e2 p with h2 | ⟨t2, ht2, hpt2, hval⟩
      · by_cases hpt : p = t.2
        · right
          exact ⟨t, by simp, hpt, by rw [h2, if_pos hpt]⟩
        · left
          rw [h2, if_neg hpt]
      · right
        exact ⟨t2, by simp [ht2], hpt2, hval⟩
    · intro t2 ht2
      rcases List.mem_cons.1 ht2 with rfl | ht2
      · rcases e2 t2.2 with h2 | ⟨t3, ht3, hpt3, hval⟩
        · rw [h2, if_pos rfl]
        · rw [hval, hco t2 (by simp) t3 (by simp [ht3]) hpt3]
      · exact e3 t2 ht2

theorem collectTasks_sound (a : Args) (env : Env) (loc : Loc)
    (aws_dir local_dir : String) :
    ∀ files ts evs, collectTasks a env loc aws_dir local_dir files = .ok (ts, evs) →
      (∀ t ∈ ts, ∃ f ∈ files, t = (aws_dir ++ "/" ++ lastComponent f,
        pathJoin2 local_dir (lastComponent f)) ∧
        should_download a env.size loc t.1 t.2 = .ok true) ∧
      (∀ f ∈ files, ∃ dec, should_download a env.size loc
          (aws_dir ++ "/" ++ lastComponent f)
          (pathJoin2 local_dir (lastComponent f)) = .ok dec ∧
        (dec = true → (aws_dir ++ "/" ++ lastComponent f,
          pathJoin2 local_dir (lastComponent f)) ∈ ts)) := by
  intro files
  induction files with
  | nil =>
    intro ts evs h
    simp only [collectTasks] at h
    cases h
    exact ⟨by simp, by simp⟩
  | cons f files ih =>
    intro ts evs h
    simp only [collectTasks] at h
    cases hsd : should_download a env.size loc (aws_dir ++ "/" ++ lastComponent f)
        (pathJoin2 local_dir (lastComponent f)) with
    | error e =>
      rw [hsd] at h
      cases h
    | ok dec =>
      rw [hsd] at h
      cases dec with
      | true =>
        cases hc : collectTasks a env loc aws_dir local_dir files with
        | error e =>
          rw [hc] at h
          cases h
        | ok p =>
          rw [hc] at h
          cases h
          obtain ⟨ih1, ih2⟩ := ih p.1 p.2 (by rw [hc])
          constructor
          · intro t ht
            rcases List.mem_cons.1 ht with rfl | ht
            · exact ⟨f, by simp, rfl, hsd⟩
            · obtain ⟨g, hg, hteq, hdec⟩ := ih1 t ht
              exact ⟨g, by simp [hg], hteq, hdec⟩
          · intro g hg
            rcases List.mem_cons.1 hg with rfl | hg
            · exact ⟨true, hsd, fun _ => by simp⟩
            · obtain ⟨dec2, hdec2, hmem⟩ := ih2 g hg
              exact ⟨dec2, hdec2, fun hd => by simp [hmem hd]⟩
      | false =>
        cases hc : collectTasks a env loc aws_dir local_dir files with
        | error e =>
          rw [hc] at h
          cases h
        | ok p =>
          rw [hc] at h
          cases h
          obtain ⟨ih1, ih2⟩ := ih p.1 p.2 (by rw [hc])
          constructor
          · intro t ht
            obtain ⟨g, hg, hteq, hdec⟩ := ih1 t ht
            exact ⟨g, by simp [hg], hteq, hdec⟩
          · intro g hg
            rcases List.mem_cons.1 hg with rfl | hg
            · exact ⟨false, hsd, fun hd => by cases hd⟩
            · exact ih2 g hg

theorem collectTasks_all_false (a : Args) (env : Env) (loc : Loc)
    (aws_dir local_dir : String) :
    ∀ files, (∀ f ∈ files, should_download a env.size loc
        (aws_dir ++ "/" ++ lastComponent f)
        (pathJoin2 local_dir (lastComponent f)) = .ok false) →
      ∃ evs, collectTasks a env loc aws_dir local_dir files = .ok ([], evs) := by
  intro files
  induction files with
  | nil =>
    intro _
    exact ⟨[], rfl⟩
  | cons f files ih =>
    intro hall
    obtain ⟨evs, hevs⟩ := ih (fun g hg => hall g (by simp [hg]))
    refine ⟨Event.skip (lastComponent f) :: evs, ?_⟩
    simp only [collectTasks, hall f (by simp), hevs]

theorem collectTasks_ok_congr (a : Args) (env : Env) (loc loc' : Loc)
    (aws_dir local_dir : String) :
    ∀ files ts evs, collectTasks a env loc aws_dir local_dir files = .ok (ts, evs) →
      ∃ ts2 evs2, collectTasks a env loc' aws_dir local_dir files = .ok (ts2, evs2) := by
  intro files
  induction files with
  | nil =>
    intro ts evs _
    exact ⟨[], [], rfl⟩
  | cons f files ih =>
    intro ts evs h
    simp only [collectTasks] at h ⊢
    cases hsd : should_download a env.size loc (aws_dir ++ "/" ++ lastComponent f)
        (pathJoin2 local_dir (lastComponent f)) with
    | error e =>
      rw [hsd] at h
      cases h
    | ok dec =>
      rw [hsd] at h
      cases hsd2 : should_download a env.size loc' (aws_dir ++ "/" ++ lastComponent f)
        (pathJoin2 local_dir (lastComponent f)) with
      | error e2 =>
        have := should_download_error_congr a env.size loc' loc _ _ e2 hsd2
        rw [this] at hsd
        cases hsd
      | ok dec2 =>
        cases hc : collectTasks a env loc aws_dir local_dir files with
        | error e =>
          cases dec <;> rw [hc] at h <;> simp at h
        | ok p =>
          obtain ⟨ts2, evs2, h2⟩ := ih p.1 p.2 (by rw [hc])
          rw [h2]
          cases dec2 <;> exact ⟨_, _, rfl⟩

theorem collectTasks_error_kind (a : Args) (env : Env) (loc : Loc)
    (aws_dir local_dir : String) :
    ∀ files e, collectTasks a env loc aws_dir local_dir files = .error e →
      e = ErrKind.valueError ∨ e = ErrKind.indexError := by
  intro files
  induction files with
  | nil =>
    intro e h
    cases h
  | cons f files ih =>
    intro e h
    simp only [collectTasks] at h
    cases hsd : should_download a env.size loc (aws_dir ++ "/" ++ lastComponent f)
        (pathJoin2 local_dir (lastComponent f)) with
    | error e2 =>
      rw [hsd] at h
      cases h
      exact should_download_error_kind a env.size loc _ _ _ hsd
    | ok dec =>
      rw [hsd] at h
      cases hc : collectTasks a env loc aws_dir local_dir files with
      | error e3 =>
        rw [hc] at h
        have he : e3 = e := by
          cases dec <;> simpa using h
        exact he ▸ ih e3 hc
      | ok p =>
        rw [hc] at h
        cases dec <;> simp at h

theorem splitOnChar_pieces (sep : Char) :
    ∀ l : List Char, ∀ piece ∈ splitOnChar sep l, sep ∉ piece := by
  intro l
  induction l with
  | nil =>
    intro piece hp
    simp only [splitOnChar, List.mem_singleton] at hp
    subst hp
    simp
  | cons c cs ih =>
    intro piece hp
    by_cases hc : c = sep
    · simp only [splitOnChar, if_pos hc] at hp
      rcases List.mem_cons.1 hp with rfl | hp
      · simp
      · exact ih piece hp
    · simp only [splitOnChar, if_neg hc] at hp
      cases hsp : splitOnChar sep cs with
      | nil => exact absurd hsp (splitOnChar_ne_nil sep cs)
      | cons g gs =>
        rw [hsp] at hp
        rcases List.mem_cons.1 hp with rfl | hp
        · intro hm
          rcases List.mem_cons.1 hm with he | hm
          · exact hc he.symm
          · exact ih g (by rw [hsp]; simp) hm
        · exact ih piece (by rw [hsp]; simp [hp])

theorem getLastD_mem_cons {α : Type} (g : α) (gs : List α) (d : α) :
    (g :: gs).getLastD d ∈ g :: gs := by
  induction gs generalizing g with
  | nil => simp [List.getLastD]
  | cons g2 t ih =>
    have : (g :: g2 :: t).getLastD d = (g2 :: t).getLastD d := by
      simp [List.getLastD]
    rw [this]
    exact List.mem_cons_of_mem g (ih g2)

theorem lastComponent_no_slash (s : String) : '/' ∉ (lastComponent s).data := by
  show '/' ∉ (splitOnChar '/' s.data).getLastD []
  cases hsp : splitOnChar '/' s.data with
  | nil => exact absurd hsp (splitOnChar_ne_nil '/' s.data)
  | cons g gs =>
    exact splitOnChar_pieces '/' s.data _ (by rw [hsp]; exact getLastD_mem_cons g gs [])

/-- The writes a run can perform: any path either keeps its old
content or holds the store-reported size of the unique remote object
mirrored at that path. -/
def GoodWrites (env : Env) (m : String) (loc loc' : Loc) : Prop :=
  ∀ p, loc' p = loc p ∨ ∃ b : Bucket, WfSeg b.product ∧ '/' ∉ b.sat.data ∧
    ∃ fn : String, WfSeg fn ∧ p = pathJoin2 (localDirOf m b) fn ∧
      loc' p = some (env.size (awsDirOf b ++ "/" ++ fn))

theorem goodWrites_refl (env : Env) (m : String) (loc : Loc) :
    GoodWrites env m loc loc := fun _ => Or.inl rfl

theorem goodWrites_trans (env : Env) (m : String) (l1 l2 l3 : Loc)
    (h12 : GoodWrites env m l1 l2) (h23 : GoodWrites env m l2 l3) :
    GoodWrites env m l1 l3 := by
  intro p
  rcases h23 p with h | ⟨b, hb1, hb2, fn, hfn, hp, hv⟩
  · rcases h12 p with h2 | ⟨b, hb1, hb2, fn, hfn, hp, hv⟩
    · exact Or.inl (h.trans h2)
    · exact Or.inr ⟨b, hb1, hb2, fn, hfn, hp, h.trans hv⟩
  · exact Or.inr ⟨b, hb1, hb2, fn, hfn, hp, hv⟩

/-- Every task one bucket collects writes a path that determines its
remote key, so coherence holds within the batch. -/
theorem tasks_coherent (env : Env) (a : Args) (loc : Loc) (b : Bucket)
    (fl : List String) (ts : List Task) (evs : List Event)
    (hwfp : WfSeg b.product) (hwfs : '/' ∉ b.sat.data)
    (hfl : ∀ f ∈ fl, (lastComponent f).data ≠ [])
    (hcol : collectTasks a env loc (awsDirOf b) (localDirOf a.mirror_dir b) fl =
      .ok (ts, evs)) :
    Coherent env ts := by
  obtain ⟨h1, -⟩ := collectTasks_sound a env loc _ _ fl ts evs hcol
  intro t ht t2 ht2 hpeq
  obtain ⟨f, hf, rfl, -⟩ := h1 t ht
  obtain ⟨g, hg, rfl, -⟩ := h1 t2 ht2
  have hwf1 : WfSeg (lastComponent f) := ⟨hfl f hf, lastComponent_no_slash f⟩
  have hwf2 : WfSeg (lastComponent g) := ⟨hfl g hg, lastComponent_no_slash g⟩
  have := (layout_round_trip a.mirror_dir b b (lastComponent f) (lastComponent g)
    hwfp hwfs hwf1 hwfp hwfs hwf2).2 hpeq
  rw [this.2.2.2.2.2.2]

/-- Decomposition of an error-free bucket: the listing and the mkdir
succeeded, the collection succeeded, and the batch ran to completion,
leaving the runTasks final state. -/
theorem processBucket_none_decomp (env : Env) (a : Args) (loc : Loc) (b : Bucket)
    (htest : a.test = false)
    (h : (processBucket env a loc b).err = none) :
    ∃ fl, env.ls (awsDirOf b) = .ok fl ∧
      env.mkdir (localDirOf a.mirror_dir b) = .ok () ∧
      ∃ ts evs, collectTasks a env loc (awsDirOf b) (localDirOf a.mirror_dir b) fl =
        .ok (ts, evs) ∧
        (processBucket env a loc b).tasks = ts ∧
        (runTasks env false loc ts).2.2 = none ∧
        (processBucket env a loc b).loc = (runTasks env false loc ts).1 := by
  unfold processBucket at h ⊢
  rw [htest] at h ⊢
  simp only [Bool.false_eq_true, if_false] at h ⊢
  cases hls : env.ls (awsDirOf b) with
  | error e =>
    rw [hls] at h
    dsimp only at h
    cases h
  | ok fl =>
    rw [hls] at h
    dsimp only at h ⊢
    cases hmk : env.mkdir (localDirOf a.mirror_dir b) with
    | error e =>
      rw [hmk] at h
      dsimp only at h
      cases h
    | ok u =>
      cases u
      rw [hmk] at h
      dsimp only at h ⊢
      cases hcol : collectTasks a env loc (awsDirOf b) (localDirOf a.mirror_dir b) fl with
      | error e =>
        rw [hcol] at h
        dsimp only at h
        cases h
      | ok p =>
        obtain ⟨ts, evs⟩ := p
        rw [hcol] at h
        dsimp only at h ⊢
        exact ⟨fl, rfl, rfl, ts, evs, hcol, rfl, h, rfl⟩

/-- A bucket that raises (in a benign environment with test off) raised
before any local write: its local state is unchanged. -/
theorem processBucket_err_loc (env : Env) (a : Args) (loc : Loc) (b : Bucket)
    (htest : a.test = false) (hget : ∀ p, env.get p = Except.ok ()) (e : ErrKind)
    (h : (processBucket env a loc b).err = some e) :
    (processBucket env a loc b).loc = loc := by
  unfold processBucket at h ⊢
  rw [htest] at h ⊢
  simp only [Bool.false_eq_true, if_false] at h ⊢
  cases hls : env.ls (awsDirOf b) with
  | error e2 =>
    rfl
  | ok fl =>
    rw [hls] at h
    dsimp only at h ⊢
    cases hmk : env.mkdir (localDirOf a.mirror_dir b) with
    | error e2 =>
      rfl
    | ok u =>
      cases u
      rw [hmk] at h
      dsimp only at h ⊢
      cases hcol : collectTasks a env loc (awsDirOf b) (localDirOf a.mirror_dir b) fl with
      | error e2 =>
        rfl
      | ok p =>
        obtain ⟨ts, evs⟩ := p
        rw [hcol] at h
        dsimp only at h
        exfalso
        have hner := runTasks_no_error env hget ts loc
        rw [hner] at h
        cases h

theorem processBucket_ls_error (env : Env) (a : Args) (loc : Loc) (b : Bucket)
    (e : ErrKind) (hls : env.ls (awsDirOf b) = .error e) :
    processBucket env a loc b = ⟨[], loc, [], some e⟩ := by
  unfold processBucket
  rw [hls]

theorem processBucket_mkdir_error (env : Env) (a : Args) (loc : Loc) (b : Bucket)
    (fl : List String) (e : ErrKind) (htest : a.test = false)
    (hls : env.ls (awsDirOf b) = .ok fl)
    (hmk : env.mkdir (localDirOf a.mirror_dir b) = .error e) :
    processBucket env a loc b = ⟨[], loc, [], some e⟩ := by
  unfold processBucket
  rw [hls, htest]
  simp only [Bool.false_eq_true, if_false]
  rw [hmk]

theorem processBucket_no_tasks (env : Env) (a : Args) (loc : Loc) (b : Bucket)
    (fl : List String) (evs : List Event) (htest : a.test = false)
    (hls : env.ls (awsDirOf b) = .ok fl)
    (hmk : env.mkdir (localDirOf a.mirror_dir b) = .ok ())
    (hcol : collectTasks a env loc (awsDirOf b) (localDirOf a.mirror_dir b) fl =
      .ok ([], evs)) :
    (processBucket env a loc b).err = none ∧ (processBucket env a loc b).loc = loc ∧
      (processBucket env a loc b).tasks = [] := by
  unfold processBucket
  rw [hls, htest]
  simp only [Bool.false_eq_true, if_false]
  rw [hmk, hcol]
  exact ⟨rfl, rfl, rfl⟩

theorem processBucket_stage3_err (env : Env) (a : Args) (loc : Loc) (b : Bucket)
    (fl : List String) (e : ErrKind) (htest : a.test = false)
    (hget : ∀ p, env.get p = Except.ok ())
    (hls : env.ls (awsDirOf b) = .ok fl)
    (hmk : env.mkdir (localDirOf a.mirror_dir b) = .ok ())
    (h : (processBucket env a loc b).err = some e) :
    collectTasks a env loc (awsDirOf b) (localDirOf a.mirror_dir b) fl = .error e := by
  unfold processBucket at h
  rw [hls, htest] at h
  simp only [Bool.false_eq_true, if_false] at h
  rw [hmk] at h
  dsimp only at h
  cases hcol : collectTasks a env loc (awsDirOf b) (localDirOf a.mirror_dir b) fl with
  | error e2 =>
    rw [hcol] at h
    dsimp only at h
    cases h
    rfl
  | ok p =>
    obtain ⟨ts, evs⟩ := p
    rw [hcol] at h
    dsimp only at h
    have hner := runTasks_no_error env hget ts loc
    rw [hner] at h
    cases h

theorem processBucket_writes (env : Env) (a : Args) (loc : Loc) (b : Bucket)
    (htest : a.test = false) (hget : ∀ p, env.get p = Except.ok ())
    (hwfp : WfSeg b.product) (hwfs : '/' ∉ b.sat.data)
    (hfl : ∀ fl, env.ls (awsDirOf b) = .ok fl → ∀ f ∈ fl, (lastComponent f).data ≠ []) :
    GoodWrites env a.mirror_dir loc (processBucket env a loc b).loc := by
  cases herr : (processBucket env a loc b).err with
  | some e =>
    rw [processBucket_err_loc env a loc b htest hget e herr]
    exact goodWrites_refl env a.mirror_dir loc
  | none =>
    obtain ⟨fl, hls, hmk, ts, evs, hcol, htasks, hrterr, hloc⟩ :=
      processBucket_none_decomp env a loc b htest herr
    rw [hloc]
    have hco := tasks_coherent env a loc b fl ts evs hwfp hwfs (hfl fl hls) hcol
    obtain ⟨-, hshape, -⟩ := runTasks_benign env hget ts loc hco
    obtain ⟨hts, -⟩ := collectTasks_sound a env loc _ _ fl ts evs hcol
    intro p
    rcases hshape p with h | ⟨t, ht, hpt, hval⟩
    · exact Or.inl h
    · obtain ⟨f, hf, rfl, -⟩ := hts t ht
      exact Or.inr ⟨b, hwfp, hwfs, lastComponent f,
        ⟨hfl fl hls f hf, lastComponent_no_slash f⟩, hpt, hval⟩

theorem processBucket_synced (env : Env) (a : Args) (loc : Loc) (b : Bucket)
    (hov : a.overwrite = false) (htest : a.test = false)
    (hget : ∀ p, env.get p = Except.ok ())
    (hwfp : WfSeg b.product) (hwfs : '/' ∉ b.sat.data)
    (fl : List String) (hls : env.ls (awsDirOf b) = .ok fl)
    (hfn : ∀ f ∈ fl, (lastComponent f).data ≠ [])
    (herr : (processBucket env a loc b).err = none) :
    ∀ f ∈ fl, should_download a env.size (processBucket env a loc b).loc
      (awsDirOf b ++ "/" ++ lastComponent f)
      (pathJoin2 (localDirOf a.mirror_dir b) (lastComponent f)) = .ok false := by
  obtain ⟨fl2, hls2, hmk, ts, evs, hcol, htasks, hrterr, hloc⟩ :=
    processBucket_none_decomp env a loc b htest herr
  rw [hls] at hls2
  cases hls2
  have hco := tasks_coherent env a loc b fl ts evs hwfp hwfs hfn hcol
  obtain ⟨-, hshape, hcover⟩ := runTasks_benign env hget ts loc hco
  obtain ⟨hts, hdecs⟩ := collectTasks_sound a env loc _ _ fl ts evs hcol
  intro f hf
  rw [hloc]
  obtain ⟨dec, hdec, hmem⟩ := hdecs f hf
  cases dec with
  | true =>
    have hcov := hcover _ (hmem rfl)
    exact downloaded_synced a env.size loc _ _ _ hov hdec hcov
  | false =>
    apply synced_stable a env.size loc _ _ _ hdec
    rcases hshape (pathJoin2 (localDirOf a.mirror_dir b) (lastComponent f)) with
      h | ⟨t, ht, hpt, hval⟩
    · exact Or.inl h
    · right
      obtain ⟨g, hg, rfl, -⟩ := hts t ht
      have hwff : WfSeg (lastComponent f) := ⟨hfn f hf, lastComponent_no_slash f⟩
      have hwfg : WfSeg (lastComponent g) := ⟨hfn g hg, lastComponent_no_slash g⟩
      have haws := (layout_round_trip a.mirror_dir b b (lastComponent f) (lastComponent g)
        hwfp hwfs hwff hwfp hwfs hwfg).2 hpt
      rw [hval, haws.2.2.2.2.2.2]

theorem synced_preserved (env : Env) (a : Args) (b : Bucket) (fn : String)
    (hwfp : WfSeg b.product) (hwfs : '/' ∉ b.sat.data) (hwffn : WfSeg fn)
    (loc loc' : Loc)
    (hgw : GoodWrites env a.mirror_dir loc loc')
    (hs : should_download a env.size loc (awsDirOf b ++ "/" ++ fn)
      (pathJoin2 (localDirOf a.mirror_dir b) fn) = .ok false) :
    should_download a env.size loc' (awsDirOf b ++ "/" ++ fn)
      (pathJoin2 (localDirOf a.mirror_dir b) fn) = .ok false := by
  apply synced_stable a env.size loc loc' _ _ hs
  rcases hgw (pathJoin2 (localDirOf a.mirror_dir b) fn) with
    h | ⟨b2, hb1, hb2, fn2, hfn2, hpeq, hval⟩
  · exact Or.inl h
  · right
    have haws := (layout_round_trip a.mirror_dir b b2 fn fn2
      hwfp hwfs hwffn hb1 hb2 hfn2).2 hpeq
    rw [hval, haws.2.2.2.2.2.2]

theorem mirrorBuckets_mem (products sats : List String) (s e : DT) (b : Bucket)
    (h : b ∈ mirrorBuckets products sats s e) :
    b.product ∈ products ∧ b.sat ∈ sats := by
  simp only [mirrorBuckets, List.mem_flatMap, List.mem_map] at h
  obtain ⟨p, hp, s2, hs2, hh, hhm, hb⟩ := h
  subst hb
  exact ⟨hp, hs2⟩

/-- Soundness of a completed run: the local filesystem only gained
correctly-sized mirror copies, every listing/mkdir failure en route was
a FileNotFoundError, and afterwards every listed object of every fully
processed bucket is rejected by the diff decision. -/
theorem runBuckets_sound (env : Env) (a : Args)
    (hov : a.overwrite = false) (htest : a.test = false)
    (hget : ∀ p, env.get p = Except.ok ())
    (hfng : ∀ dir fl, env.ls dir = .ok fl → ∀ f ∈ fl, (lastComponent f).data ≠ []) :
    ∀ (bs : List Bucket) (st : RunState),
      (∀ b ∈ bs, WfSeg b.product ∧ '/' ∉ b.sat.data) →
      (runBuckets env a st bs).2 = none →
      GoodWrites env a.mirror_dir st.loc (runBuckets env a st bs).1.loc ∧
      ∀ b ∈ bs,
        (∀ e, env.ls (awsDirOf b) = .error e → e = ErrKind.fileNotFound) ∧
        (∀ fl, env.ls (awsDirOf b) = .ok fl →
          ∀ e, env.mkdir (localDirOf a.mirror_dir b) = .error e →
            e = ErrKind.fileNotFound) ∧
        (∀ fl, env.ls (awsDirOf b) = .ok fl →
          env.mkdir (localDirOf a.mirror_dir b) = .ok () →
          ∀ f ∈ fl, should_download a env.size (runBuckets env a st bs).1.loc
            (awsDirOf b ++ "/" ++ lastComponent f)
            (pathJoin2 (localDirOf a.mirror_dir b) (lastComponent f)) = .ok false) := by
  intro bs
  induction bs with
  | nil =>
    intro st hwf hnone
    exact ⟨goodWrites_refl env a.mirror_dir st.loc, by simp⟩
  | cons b bs ih =>
    intro st hwf hnone
    have hwfb := hwf b (by simp)
    have hwftail : ∀ b2 ∈ bs, WfSeg b2.product ∧ '/' ∉ b2.sat.data :=
      fun b2 hb2 => hwf b2 (by simp [hb2])
    have hflb : ∀ fl, env.ls (awsDirOf b) = .ok fl →
        ∀ f ∈ fl, (lastComponent f).data ≠ [] :=
      fun fl hls => hfng _ fl hls
    cases hr : (processBucket env a st.loc b).err with
    | none =>
      rw [show runBuckets env a st (b :: bs) = runBuckets env a
          ⟨(processBucket env a st.loc b).loc,
            st.events ++ (processBucket env a st.loc b).events,
            st.outcomes ++ [.done (processBucket env a st.loc b).tasks]⟩ bs from by
        simp only [runBuckets, hr]] at hnone ⊢
      obtain ⟨ihgw, ihfacts⟩ := ih _ hwftail hnone
      have hgwb := processBucket_writes env a st.loc b htest hget hwfb.1 hwfb.2 hflb
      refine ⟨goodWrites_trans env a.mirror_dir _ _ _ hgwb ihgw, ?_⟩
      intro b2 hb2
      rcases List.mem_cons.1 hb2 with rfl | hb2
      · refine ⟨?_, ?_, ?_⟩
        · intro e hlse
          rw [processBucket_ls_error env a st.loc b2 e hlse] at hr
          cases hr
        · intro fl hls e hmke
          rw [processBucket_mkdir_error env a st.loc b2 fl e htest hls hmke] at hr
          cases hr
        · intro fl hls hmk f hf
          have hsync := processBucket_synced env a st.loc b2 hov htest hget
            hwfb.1 hwfb.2 fl hls (hflb fl hls) hr f hf
          exact synced_preserved env a b2 (lastComponent f) hwfb.1 hwfb.2
            ⟨hflb fl hls f hf, lastComponent_no_slash f⟩ _ _ ihgw hsync
      · exact ihfacts b2 hb2
    | some e =>
      by_cases hfnf : e = ErrKind.fileNotFound
      · subst hfnf
        have hloceq := processBucket_err_loc env a st.loc b htest hget _ hr
        rw [show runBuckets env a st (b :: bs) = runBuckets env a
            ⟨(processBucket env a st.loc b).loc,
              st.events ++ (processBucket env a st.loc b).events ++ [.missing (awsDirOf b)],
              st.outcomes ++ [.missing (awsDirOf b)]⟩ bs from by
          simp only [runBuckets, hr, if_pos rfl, if_true]] at hnone ⊢
        rw [hloceq] at hnone ⊢
        obtain ⟨ihgw, ihfacts⟩ := ih _ hwftail hnone
        refine ⟨ihgw, ?_⟩
        intro b2 hb2
        rcases List.mem_cons.1 hb2 with rfl | hb2
        · refine ⟨?_, ?_, ?_⟩
          · intro e2 hlse
            rw [processBucket_ls_error env a st.loc b2 e2 hlse] at hr
            cases hr
            rfl
          · intro fl hls e2 hmke
            rw [processBucket_mkdir_error env a st.loc b2 fl e2 htest hls hmke] at hr
            cases hr
            rfl
          · intro fl hls hmk f hf
            exfalso
            have hcolerr := processBucket_stage3_err env a st.loc b2 fl _ htest hget
              hls hmk hr
            rcases collectTasks_error_kind a env st.loc _ _ fl _ hcolerr with h2 | h2 <;>
              cases h2
        · exact ihfacts b2 hb2
      · rw [show (runBuckets env a st (b :: bs)).2 = some e from by
          simp only [runBuckets, hr, if_neg hfnf]] at hnone
        cases hnone

/-- A run over buckets that are already synchronized at every decision
point issues no tasks, changes no local file and finishes cleanly. -/
theorem runBuckets_second (env : Env) (a : Args)
    (hov : a.overwrite = false) (htest : a.test = false)
    (hget : ∀ p, env.get p = Except.ok ()) :
    ∀ (bs : List Bucket) (st : RunState),
      (∀ b ∈ bs,
        (∀ e, env.ls (awsDirOf b) = .error e → e = ErrKind.fileNotFound) ∧
        (∀ fl, env.ls (awsDirOf b) = .ok fl →
          ∀ e, env.mkdir (localDirOf a.mirror_dir b) = .error e →
            e = ErrKind.fileNotFound) ∧
        (∀ fl, env.ls (awsDirOf b) = .ok fl →
          env.mkdir (localDirOf a.mirror_dir b) = .ok () →
          ∀ f ∈ fl, should_download a env.size st.loc
            (awsDirOf b ++ "/" ++ lastComponent f)
            (pathJoin2 (localDirOf a.mirror_dir b) (lastComponent f)) = .ok false)) →
      (runBuckets env a st bs).2 = none ∧
      (runBuckets env a st bs).1.loc = st.loc ∧
      (∀ ts, Outcome.done ts ∈ (runBuckets env a st bs).1.outcomes →
        Outcome.done ts ∈ st.outcomes ∨ ts = []) := by
  intro bs
  induction bs with
  | nil =>
    intro st _
    exact ⟨rfl, rfl, fun ts h => Or.inl h⟩
  | cons b bs ih =>
    intro st hfacts
    obtain ⟨hf1, hf2, hf3⟩ := hfacts b (by simp)
    have htail : ∀ st2 : RunState, st2.loc = st.loc → ∀ b2 ∈ bs,
        (∀ e, env.ls (awsDirOf b2) = .error e → e = ErrKind.fileNotFound) ∧
        (∀ fl, env.ls (awsDirOf b2) = .ok fl →
          ∀ e, env.mkdir (localDirOf a.mirror_dir b2) = .error e →
            e = ErrKind.fileNotFound) ∧
        (∀ fl, env.ls (awsDirOf b2) = .ok fl →
          env.mkdir (localDirOf a.mirror_dir b2) = .ok () →
          ∀ f ∈ fl, should_download a env.size st2.loc
            (awsDirOf b2 ++ "/" ++ lastComponent f)
            (pathJoin2 (localDirOf a.mirror_dir b2) (lastComponent f)) = .ok false) := by
      intro st2 hst2 b2 hb2
      rw [hst2]
      exact hfacts b2 (by simp [hb2])
    have habsorbed : ∀ d : String, processBucket env a st.loc b =
          ⟨[], st.loc, [], some ErrKind.fileNotFound⟩ →
        (runBuckets env a st (b :: bs)).2 = none ∧
        (runBuckets env a st (b :: bs)).1.loc = st.loc ∧
        (∀ ts, Outcome.done ts ∈ (runBuckets env a st (b :: bs)).1.outcomes →
          Outcome.done ts ∈ st.outcomes ∨ ts = []) := by
      intro d hpb
      have hr : (processBucket env a st.loc b).err = some ErrKind.fileNotFound := by
        rw [hpb]
      rw [show runBuckets env a st (b :: bs) = runBuckets env a
          ⟨(processBucket env a st.loc b).loc,
            st.events ++ (processBucket env a st.loc b).events ++ [.missing (awsDirOf b)],
            st.outcomes ++ [.missing (awsDirOf b)]⟩ bs from by
        simp only [runBuckets, hr, if_pos rfl, if_true]]
      have hloceq : (processBucket env a st.loc b).loc = st.loc := by
        rw [hpb]
      obtain ⟨ih1, ih2, ih3⟩ := ih ⟨(processBucket env a st.loc b).loc,
        st.events ++ (processBucket env a st.loc b).events ++ [.missing (awsDirOf b)],
        st.outcomes ++ [.missing (awsDirOf b)]⟩ (htail _ hloceq)
      refine ⟨ih1, ih2.trans hloceq, ?_⟩
      intro ts hts
      rcases ih3 ts hts with hin | hnil
      · dsimp only at hin
        rcases List.mem_append.1 hin with hin | hin
        · exact Or.inl hin
        · simp at hin
      · exact Or.inr hnil
    cases hls : env.ls (awsDirOf b) with
    | error e =>
      have hefnf := hf1 e hls
      subst hefnf
      exact habsorbed (awsDirOf b) (processBucket_ls_error env a st.loc b _ hls)
    | ok fl =>
      cases hmk : env.mkdir (localDirOf a.mirror_dir b) with
      | error e =>
        have hefnf := hf2 fl hls e hmk
        subst hefnf
        exact habsorbed (awsDirOf b)
          (processBucket_mkdir_error env a st.loc b fl _ htest hls hmk)
      | ok u =>
        cases u
        obtain ⟨evs, hcol⟩ := collectTasks_all_false a env st.loc _ _ fl (hf3 fl hls hmk)
        obtain ⟨hr, hloceq, htasks⟩ :=
          processBucket_no_tasks env a st.loc b fl evs htest hls hmk hcol
        rw [show runBuckets env a st (b :: bs) = runBuckets env a
            ⟨(processBucket env a st.loc b).loc,
              st.events ++ (processBucket env a st.loc b).events,
              st.outcomes ++ [.done (processBucket env a st.loc b).tasks]⟩ bs from by
          simp only [runBuckets, hr]]
        obtain ⟨ih1, ih2, ih3⟩ := ih ⟨(processBucket env a st.loc b).loc,
          st.events ++ (processBucket env a st.loc b).events,
          st.outcomes ++ [.done (processBucket env a st.loc b).tasks]⟩ (htail _ hloceq)
        refine ⟨ih1, ih2.trans hloceq, ?_⟩
        intro ts hts
        rcases ih3 ts hts with hin | hnil
        · dsimp only at hin
          rcases List.mem_append.1 hin with hin | hin
          · exact Or.inl hin
          · right
            simp only [List.mem_singleton] at hin
            cases hin
            exact htasks
        · exact Or.inr hnil

/-- C6: with overwrite = false, dry run off, reliable transfers, an
unchanged remote object set, well-formed product/satellite identifiers
and nonempty listed filenames, a second mirror run immediately after a
successful first run issues zero download tasks: it finishes cleanly,
leaves the local filesystem untouched, and every per-bucket batch it
records is empty. -/
theorem mirror_idempotent (env : Env) (a : Args) (products sats : List String)
    (loc0 : Loc)
    (hov : a.overwrite = false) (htest : a.test = false)
    (hget : ∀ p, env.get p = Except.ok ())
    (hwfp : ∀ p ∈ products, WfSeg p)
    (hwfs : ∀ s ∈ sats, '/' ∉ s.data)
    (hfng : ∀ dir fl, env.ls dir = .ok fl → ∀ f ∈ fl, (lastComponent f).data ≠ [])
    (hok : (mirror env a products sats loc0).2 = none) :
    (mirror env a products sats (mirror env a products sats loc0).1.loc).2 = none ∧
    (mirror env a products sats (mirror env a products sats loc0).1.loc).1.loc =
      (mirror env a products sats loc0).1.loc ∧
    ∀ ts, Outcome.done ts ∈
        (mirror env a products sats (mirror env a products sats loc0).1.loc).1.outcomes →
      ts = [] := by
  have hwfbs : ∀ b ∈ mirrorBuckets products sats a.start_time a.end_time,
      WfSeg b.product ∧ '/' ∉ b.sat.data := by
    intro b hb
    obtain ⟨hp, hs⟩ := mirrorBuckets_mem products sats a.start_time a.end_time b hb
    exact ⟨hwfp b.product hp, hwfs b.sat hs⟩
  obtain ⟨hgw, hfacts⟩ := runBuckets_sound env a hov htest hget hfng
    (mirrorBuckets products sats a.start_time a.end_time) ⟨loc0, [], []⟩ hwfbs hok
  obtain ⟨h1, h2, h3⟩ := runBuckets_second env a hov htest hget
    (mirrorBuckets products sats a.start_time a.end_time)
    ⟨(mirror env a products sats loc0).1.loc, [], []⟩ (fun b hb => hfacts b hb)
  refine ⟨h1, h2, ?_⟩
  intro ts hts
  rcases h3 ts hts with hin | hnil
  · simp at hin
  · exact hnil

/-! ## Concrete scenario used by the witnesses -/

def egFn : String := "OR_ABI-L1b-RadF-M3C01_G16_s20200010530000_e2020.nc"

def egDir : String := "s3://noaa-goes16/ABI-L1b-RadF/2020/001/05"

def egEnv : Env where
  ls := fun d => if d = egDir then .ok [egDir ++ "/" ++ egFn] else .error .fileNotFound
  size := fun _ => 77
  mkdir := fun _ => .ok ()
  get := fun _ => .ok ()

def egArgs : Args where
  mirror_dir := "/data"
  start_time := ⟨2020, 1, 5, 30, 0⟩
  end_time := ⟨2020, 1, 6, 15, 0⟩
  overwrite := false
  test := false
  fn_filter := none

def egLoc0 : Loc := fun _ => none

theorem window_reject_witness :
    should_download egArgs (fun _ => 77) egLoc0
      "s3://x/OR_A_G16_s20200010700000_e.nc" "/data/f.nc" = .ok false :=
  window_reject egArgs (fun _ => 77) egLoc0
    "s3://x/OR_A_G16_s20200010700000_e.nc" "/data/f.nc" ⟨2020, 1, 7, 0, 0⟩
    (by rfl) (by decide)

theorem size_diff_decision_witness :
    should_download egArgs (fun _ => 77) (fun _ => some 77)
      ("s3://x/" ++ egFn) "/data/f.nc" = .ok false :=
  (size_diff_decision egArgs (fun _ => 77) (fun _ => some 77)
    ("s3://x/" ++ egFn) "/data/f.nc" ⟨2020, 1, 5, 30, 0⟩
    (by intro flt h; simp [egArgs] at h) (by rfl) (by decide)).2.2 rfl rfl

theorem hour_bucket_sequence_witness :
    mirrorHours egArgs.start_time egArgs.end_time ≠ [] ∧
    (mirrorHours egArgs.start_time egArgs.end_time).head? =
      some (floorHour egArgs.start_time) ∧
    (mirrorHours egArgs.start_time egArgs.end_time).getLast? =
      some (floorHour egArgs.end_time) :=
  ⟨(hour_bucket_sequence egArgs.start_time egArgs.end_time
      (by decide) (by decide) (by decide)).1,
   (hour_bucket_sequence egArgs.start_time egArgs.end_time
      (by decide) (by decide) (by decide)).2.1,
   (hour_bucket_sequence egArgs.start_time egArgs.end_time
      (by decide) (by decide) (by decide)).2.2.1⟩

def egBuckets : List Bucket :=
  [⟨"ABI-L1b-RadF", "16", ⟨2020, 1, 5, 0, 0⟩⟩,
   ⟨"ABI-L1b-RadF", "16", ⟨2020, 1, 6, 0, 0⟩⟩]

def egEnvBad : Env where
  ls := fun _ => .ok ["noext"]
  size := fun _ => 77
  mkdir := fun _ => .ok ()
  get := fun _ => .ok ()

theorem bucket_isolation_witness :
    (runBuckets egEnv egArgs ⟨egLoc0, [], []⟩ egBuckets).1.outcomes.length =
      ([] : List Outcome).length + egBuckets.length ∧
    (runBuckets egEnvBad egArgs ⟨egLoc0, [], []⟩ egBuckets).2 =
      some ErrKind.indexError :=
  ⟨(bucket_isolation egEnv egArgs ⟨egLoc0, [], []⟩ egBuckets).1 rfl,
   (((bucket_isolation egEnvBad egArgs ⟨egLoc0, [], []⟩ egBuckets).2.2
      [] ⟨"ABI-L1b-RadF", "16", ⟨2020, 1, 5, 0, 0⟩⟩
      [⟨"ABI-L1b-RadF", "16", ⟨2020, 1, 6, 0, 0⟩⟩]
      rfl rfl ErrKind.indexError rfl).2 (by decide)).2.1⟩

def egArgsFilter : Args := { egArgs with fn_filter := some (fun _ => false) }

theorem predicate_short_circuit_witness :
    should_download egArgsFilter (fun _ => 77) egLoc0
      "s3://x/NOT_A_TIMESTAMP" "/data/f.nc" = .ok false :=
  predicate_short_circuit egArgsFilter (fun _ => 77) egLoc0
    "s3://x/NOT_A_TIMESTAMP" "/data/f.nc" (fun _ => false) rfl rfl

theorem mirror_idempotent_witness :
    (mirror egEnv egArgs ["ABI-L1b-RadF"] ["16"]
      (mirror egEnv egArgs ["ABI-L1b-RadF"] ["16"] egLoc0).1.loc).2 = none ∧
    (mirror egEnv egArgs ["ABI-L1b-RadF"] ["16"]
      (mirror egEnv egArgs ["ABI-L1b-RadF"] ["16"] egLoc0).1.loc).1.loc =
      (mirror egEnv egArgs ["ABI-L1b-RadF"] ["16"] egLoc0).1.loc := by
  have H := mirror_idempotent egEnv egArgs ["ABI-L1b-RadF"] ["16"] egLoc0
    rfl rfl (fun _ => rfl)
    (by
      intro p hp
      rw [List.mem_singleton] at hp
      subst hp
      exact ⟨by decide, by decide⟩)
    (by decide)
    (by
      intro dir fl h f hf
      simp only [egEnv] at h
      split at h
      · cases h
        rw [List.mem_singleton] at hf
        subst hf
        decide
      · cases h)
    rfl
  exact ⟨H.1, H.2.1⟩

theorem timestamp_convention_witness :
    ((padNum 4 2017).data ++ (padNum 3 167).data ++ (padNum 2 11).data ++
        (padNum 2 45).data ++ (padNum 2 34).data).length = 13 ∧
    parseFileTime ⟨"OR".data ++ '_' :: ("ABI-L1b-RadF-M3C01".data ++ '_' ::
        ("G16".data ++ '_' ::
        (('s' :: ((padNum 4 2017).data ++ (padNum 3 167).data ++ (padNum 2 11).data ++
          (padNum 2 45).data ++ (padNum 2 34).data ++ ['2'])) ++ '_' :: "e.nc".data)))⟩ =
      .ok ⟨2017, 167, 11, 45, 34⟩ := by
  have H := timestamp_convention "OR".data "ABI-L1b-RadF-M3C01".data "G16".data
    "e.nc".data 's' '2' 2017 167 11 45 34
    (by decide) (by decide) (by decide) (by decide) (by decide)
    (by decide) (by decide) (by decide) (by decide)
    (by decide) (by decide) (by decide)
  exact ⟨H.1, H.2.1⟩

def egBucket : Bucket := ⟨"ABI-L1b-RadF", "16", ⟨2020, 1, 5, 0, 0⟩⟩

theorem layout_round_trip_witness :
    layoutSplit "/data" (pathJoin2 (localDirOf "/data" egBucket) "f.nc") =
      some ("16", "ABI-L1b-RadF", natStr 2020, padNum 3 1, padNum 2 5, "f.nc") :=
  (layout_round_trip "/data" egBucket egBucket "f.nc" "f.nc"
    ⟨by decide, by decide⟩ (by decide) ⟨by decide, by decide⟩
    ⟨by decide, by decide⟩ (by decide) ⟨by decide, by decide⟩).1

def egArgsTest : Args := { egArgs with test := true }

theorem dry_run_no_writes_witness :
    (mirror egEnv egArgsTest ["ABI-L1b-RadF"] ["16"] egLoc0).1.loc = egLoc0 :=
  (dry_run_no_writes egEnv egArgsTest ["ABI-L1b-RadF"] ["16"] egLoc0 rfl).1

def egArgsOverwrite : Args := { egArgs with overwrite := true }

theorem overwrite_noninterference_witness :
    should_download egArgsOverwrite (fun _ => 1) (fun _ => none)
        ("s3://x/" ++ egFn) "/data/f.nc" =
      should_download egArgsOverwrite (fun _ => 2) (fun _ => some 5)
        ("s3://x/" ++ egFn) "/data/f.nc" :=
  overwrite_noninterference egArgsOverwrite (fun _ => 1) (fun _ => 2)
    (fun _ => none) (fun _ => some 5) ("s3://x/" ++ egFn) "/data/f.nc" rfl

end Goesmirror
